import Mathlib

/-!
The quenby shell window: view registry, control bridge and overlay panel.

A shallow embedding of `src/mainwindow.cpp`.

* C++ object pointers are `Option Nat`: `none` is `Q_NULLPTR`, `some a` is the
  address of an object.
* The web views are the children of `browserWidget`; the list `children` holds
  them in paint order (the last child is painted on top), as the toolkit keeps
  the children of a widget.
* `uint64_t` values are natural numbers below `2 ^ 64`; the only arithmetic on
  them is the increment in `nextKey`, taken modulo `2 ^ 64`.
* Signal connections made with `QObject::connect` are recorded on the sender
  (`observerKey`, `titleToWindow`, `permissionHandler`), and a signal raised by
  a view is an operation of its own (`Op.viewUrlChanged`, ...).
* Calling a member through a null pointer is undefined behaviour. The one place
  where the code can do it is `lookupVisibleWebView`; its result then is
  `Lookup.nullDeref`, with the state reached by then, and a run ends there.
-/

namespace Quenby

/-! ## Toolkit values -/

/-- Page background colours: `Qt::white`, `Qt::transparent`, or any other. -/
inductive Color where
  | white
  | transparent
  | rgba (r g b a : Nat)
  deriving DecidableEq, Repr

/-- A parsed URL as the engine hands it to `featurePermissionRequested`;
`host` is what `QUrl::host()` returns. -/
structure QUrl where
  scheme : String
  host : String
  port : Option Nat
  path : String
  deriving DecidableEq, Repr

/-- The values of `WebEnginePage::PermissionPolicy` the handler chooses from,
and `PermissionUnknown` for a request nobody answered. -/
inductive PermissionPolicy where
  | PermissionUnknown
  | PermissionGrantedByUser
  | PermissionDeniedByUser
  deriving DecidableEq, Repr

/-- One answer recorded by `page->setFeaturePermission(origin, feature, verdict)`. -/
structure FeaturePermission where
  securityOrigin : QUrl
  feature : Nat
  verdict : PermissionPolicy
  deriving DecidableEq, Repr

/-- The page object of a view. -/
structure WebEnginePage where
  backgroundColor : Color
  webChannel : Bool
  permissionHandler : Bool
  featurePermissions : List FeaturePermission
  deriving DecidableEq, Repr

/-- Modelled from the spec: `WebEnginePage` is declared in `webenginepage.h`,
which is not part of the sources at hand. A fresh page has the default opaque
background colour (white), no web channel and no connected handler. -/
def WebEnginePage.fresh : WebEnginePage :=
  { backgroundColor := Color.white, webChannel := false,
    permissionHandler := false, featurePermissions := [] }

/-- Widget geometry as passed to `setGeometry(x, y, w, h)`. -/
structure QRect where
  x : Int
  y : Int
  w : Int
  h : Int
  deriving DecidableEq, Repr

/-- An embedded web view, a child widget of `browserWidget`. `addr` is the
address of the object. `observerKey` is the handle captured by the three
observer lambdas of the create handler; `titleToWindow` is the constructor's
`titleChanged` connection that sets the window title. -/
structure QWebEngineView where
  addr : Nat
  url : String
  geometry : QRect
  visible : Bool
  autoFillBackground : Bool
  page : WebEnginePage
  observerKey : Option Nat
  titleToWindow : Bool
  deriving DecidableEq, Repr

/-- A view as `new QWebEngineView(browserWidget)` leaves it, before the code
configures it: toolkit defaults (not shown, no background fill). -/
def QWebEngineView.fresh (a : Nat) : QWebEngineView :=
  { addr := a, url := "", geometry := { x := 0, y := 0, w := 0, h := 0 },
    visible := false, autoFillBackground := false, page := WebEnginePage.fresh,
    observerKey := none, titleToWindow := false }

/-- The `QQuickWidget` that shows the input panel. -/
structure QQuickWidget where
  visible : Bool
  width : Int
  height : Int
  deriving DecidableEq, Repr

/-- Notifications the control interface emits to hosted content. -/
inductive Notification where
  | onWebViewURLChanged (key : Nat) (url : String)
  | onWebViewTitleChanged (key : Nat) (title : String)
  | onWebViewLoadProgressChanged (key : Nat) (progress : Int)
  deriving DecidableEq, Repr

/-! ## The handle-to-view mapping -/

/-- Modelled from the spec: the member `views` is declared in `mainwindow.h`,
which is not part of the sources at hand; the spec calls it a mapping from
numeric handles to views. The source calls `insert(key, value)`, `remove(key)`,
`contains(key)`, `value(key)`, `size()` and `operator[]` on it, the interface
of the toolkit's associative containers. It is kept as a list of entries with
increasing keys. -/
abbrev QMap (V : Type) := List (Nat × V)

namespace QMap

variable {V : Type}

/-- The member `contains(key)`. -/
def contains (m : QMap V) (key : Nat) : Bool :=
  m.any (fun e => e.1 == key)

/-- The member `value(key)`: the mapped value, or a default-constructed one. -/
def value [Inhabited V] (m : QMap V) (key : Nat) : V :=
  match m.find? (fun e => e.1 == key) with
  | some e => e.2
  | none => default

/-- The member `insert(key, value)`: replaces the value of an existing key. -/
def insert : QMap V → Nat → V → QMap V
  | [], key, v => [(key, v)]
  | e :: m, key, v =>
    if key < e.1 then (key, v) :: e :: m
    else if key = e.1 then (key, v) :: m
    else e :: insert m key v

/-- The member `remove(key)`. -/
def remove (m : QMap V) (key : Nat) : QMap V :=
  m.filter (fun e => !(e.1 == key))

/-- The member `size()`. -/
def size (m : QMap V) : Nat :=
  m.length

/-- The non-const `operator[]`: an absent key is first inserted with a value
that is default-constructed (a null pointer, for pointers). Returns the
container afterwards and the value. -/
def index [Inhabited V] (m : QMap V) (key : Nat) : QMap V × V :=
  if contains m key then (m, value m key)
  else (insert m key default, default)

end QMap

/-! ## The window -/

/-- State of the process as far as `MainWindow` is concerned. `nextKeyStatic` is
the function-local `static uint64_t nextKey` of `MainWindow::nextKey`. -/
structure MainWindow where
  nextKeyStatic : Nat
  views : QMap (Option Nat)
  children : List QWebEngineView
  quickWidget : QQuickWidget
  inputPanel : Option Int
  windowTitle : String
  notifications : List Notification
  deriving DecidableEq, Repr

/-- What the embedding application and the toolkit supply at construction:
the three constructor arguments, the width of the new window, whether the
panel's QML loaded (`rootObject()` non-null) and the panel widget's size. -/
structure Startup where
  mainViewUrl : String
  mainViewWidth : Int
  mainViewHeight : Int
  windowWidth : Int
  panelLoaded : Bool
  panelWidth : Int
  panelHeight : Int
  deriving DecidableEq, Repr

/-- The object a pointer refers to; `none` for `Q_NULLPTR` (and for an address
that is no child of `browserWidget`, which no reachable state has in its
mapping, see `wellFormed_run`). -/
def deref (s : MainWindow) (p : Option Nat) : Option QWebEngineView :=
  match p with
  | none => none
  | some a => s.children.find? (fun v => v.addr == a)

/-- A call of a mutator through a pointer to a view: the child at that address
is replaced by its updated value. -/
def updateView (s : MainWindow) (a : Nat) (f : QWebEngineView → QWebEngineView) : MainWindow :=
  { s with children := s.children.map (fun v => if v.addr = a then f v else v) }

/-- An address no live child has, for `new`. -/
def freshAddr (children : List QWebEngineView) : Nat :=
  (children.map (fun v => v.addr)).foldr max 0 + 1

/-- `MainWindow::nextKey`: `static uint64_t nextKey = 0; return nextKey++;`. -/
def nextKey (s : MainWindow) : Nat × MainWindow :=
  (s.nextKeyStatic, { s with nextKeyStatic := (s.nextKeyStatic + 1) % 2 ^ 64 })

/-- `MainWindow::addWebView`. Returns the pointer to the new view. -/
def addWebView (s : MainWindow) (key : Nat) : Nat × MainWindow :=
  let a := freshAddr s.children
  let view := QWebEngineView.fresh a
  let view := { view with autoFillBackground := true }
  let page := WebEnginePage.fresh
  let view := { view with page := page }
  (a, { s with children := s.children ++ [view],
               views := QMap.insert s.views key (some a) })

/-- `MainWindow::lookupWebView`. -/
def lookupWebView (s : MainWindow) (key : Nat) : Option Nat :=
  if QMap.contains s.views key then QMap.value s.views key
  else none

/-- Result of a lookup: the pointer returned, or a null pointer dereferenced
on the way. -/
inductive Lookup where
  | found (p : Option Nat)
  | nullDeref
  deriving DecidableEq, Repr

/-- The loop of `MainWindow::lookupVisibleWebView` from index `i` on:
`for (int i=0; i<views.size(); i++) if (views[i]->isVisible()) return views[i];`
followed by `return Q_NULLPTR`. `views[i]` is `operator[]` with the loop
counter as key; `->isVisible()` on a pointer that refers to no view ends the
loop with `Lookup.nullDeref`, in the state reached by then. The result is
`none` when the fuel runs out. -/
def lookupVisibleFrom (s : MainWindow) : Nat → Nat → Option (MainWindow × Lookup)
  | 0, _ => none
  | fuel + 1, i =>
    if i < QMap.size s.views then
      let r := QMap.index s.views i
      let s1 := { s with views := r.1 }
      match deref s1 r.2 with
      | none => some (s1, Lookup.nullDeref)
      | some v =>
        if v.visible then some (s1, Lookup.found r.2)
        else lookupVisibleFrom s1 fuel (i + 1)
    else some (s, Lookup.found none)

/-- `MainWindow::lookupVisibleWebView`, with fuel for one round more than the
mapping has entries (never exhausted, see `lookupVisibleFrom_fuel`). -/
def lookupVisibleWebView (s : MainWindow) : MainWindow × Lookup :=
  match lookupVisibleFrom s (QMap.size s.views + 1) 0 with
  | some r => r
  | none => (s, Lookup.nullDeref)

/-! ### Control-channel handlers (`MainWindow::createControlInterface`) -/

/-- Handler of `onCreateWebViewRequested`; returns the new handle. -/
def onCreateWebViewRequested (s : MainWindow) : Nat × MainWindow :=
  let r := nextKey s
  let key := r.1
  let r2 := addWebView r.2 key
  (key, updateView r2.2 r2.1 (fun v => { v with observerKey := some key }))

/-- Handler of `onDestroyWebViewRequested`. -/
def onDestroyWebViewRequested (s : MainWindow) (key : Nat) : MainWindow :=
  match lookupWebView s key with
  | none => s
  | some a =>
    let s1 := updateView s a (fun v => { v with visible := false })
    let s2 := { s1 with views := QMap.remove s1.views key }
    { s2 with children := s2.children.filter (fun v => !(v.addr == a)) }

/-- Handler of `onWebViewURLChangeRequested`. -/
def onWebViewURLChangeRequested (s : MainWindow) (key : Nat) (url : String) : MainWindow :=
  match lookupWebView s key with
  | none => s
  | some a => updateView s a (fun v => { v with url := url })

/-- Handler of `onWebViewGeometryChangeRequested`. -/
def onWebViewGeometryChangeRequested (s : MainWindow) (key : Nat) (x y w h : Int) : MainWindow :=
  match lookupWebView s key with
  | none => s
  | some a => updateView s a (fun v => { v with geometry := { x := x, y := y, w := w, h := h } })

/-- Handler of `onWebViewVisibleChangeRequested`. -/
def onWebViewVisibleChangeRequested (s : MainWindow) (key : Nat) (value : Bool) : MainWindow :=
  match lookupWebView s key with
  | none => s
  | some a => updateView s a (fun v => { v with visible := value })

/-- Handler of `onWebViewTransparentBackgroundChangeRequested`. -/
def onWebViewTransparentBackgroundChangeRequested (s : MainWindow) (key : Nat) (value : Bool) :
    MainWindow :=
  match lookupWebView s key with
  | none => s
  | some a =>
    if value then
      updateView s a (fun v =>
        { v with autoFillBackground := false,
                 page := { v.page with backgroundColor := Color.transparent } })
    else
      updateView s a (fun v =>
        { v with autoFillBackground := true,
                 page := { v.page with backgroundColor := Color.white } })

/-- Puts `v` directly in front of the child at address `under` in a child list. -/
def insertBefore (under : Nat) (v : QWebEngineView) : List QWebEngineView → List QWebEngineView
  | [] => []
  | c :: cs => if c.addr = under then v :: c :: cs else c :: insertBefore under v cs

/-- Modelled from the spec: `QWidget::stackUnder` is toolkit code. It reorders
the widget directly behind `under` in the parent's paint order; nothing happens
when the two are the same widget or are not both children of the parent. -/
def stackUnder (children : List QWebEngineView) (top under : Nat) : List QWebEngineView :=
  if top = under then children
  else
    match children.find? (fun v => v.addr == top) with
    | none => children
    | some v =>
      if children.any (fun c => c.addr == under) then
        insertBefore under v (children.filter (fun c => !(c.addr == top)))
      else children

/-- Modelled from the spec: `QWidget::raise` is toolkit code. It brings the
widget to the front of the parent's paint order (the end of the child list). -/
def raise (children : List QWebEngineView) (a : Nat) : List QWebEngineView :=
  match children.find? (fun v => v.addr == a) with
  | none => children
  | some v => children.filter (fun c => !(c.addr == a)) ++ [v]

/-- Handler of `onWebViewStackUnder`. -/
def onWebViewStackUnder (s : MainWindow) (topKey underKey : Nat) : MainWindow :=
  match lookupWebView s topKey, lookupWebView s underKey with
  | some wTop, some wUnder => { s with children := stackUnder s.children wTop wUnder }
  | _, _ => s

/-- Handler of `onWebViewStackOnTop`. -/
def onWebViewStackOnTop (s : MainWindow) (key : Nat) : MainWindow :=
  match lookupWebView s key with
  | none => s
  | some w => { s with children := raise s.children w }

/-! ### Overlay panel slots and window events -/

/-- `MainWindow::onActiveChanged`. -/
def onActiveChanged (s : MainWindow) (a : Bool) : MainWindow :=
  { s with quickWidget := { s.quickWidget with visible := a } }

/-- `MainWindow::onHeightChanged`: reads the size, replaces its height, resizes. -/
def onHeightChanged (s : MainWindow) (h : Int) : MainWindow :=
  let newSize := (s.quickWidget.width, s.quickWidget.height)
  let newSize := (newSize.1, h)
  { s with quickWidget := { s.quickWidget with width := newSize.1, height := newSize.2 } }

/-- `MainWindow::resizeEvent` with the new window width. -/
def resizeEvent (s : MainWindow) (width : Int) : MainWindow :=
  match s.inputPanel with
  | none => s
  | some _ => { s with inputPanel := some width }

/-! ### Signals raised by the views -/

/-- The verdict computed by the `featurePermissionRequested` lambda of the
constructor. -/
def permissionVerdict (securityOrigin : QUrl) (_feature : Nat) : PermissionPolicy :=
  if securityOrigin.host = "localhost" then PermissionPolicy.PermissionGrantedByUser
  else PermissionPolicy.PermissionDeniedByUser

/-- The page of the view at `a` raises `featurePermissionRequested`. The lambda
runs on a page it was connected to and records its verdict there. -/
def featurePermissionRequested (s : MainWindow) (a : Nat) (securityOrigin : QUrl)
    (feature : Nat) : MainWindow :=
  updateView s a (fun v =>
    if v.page.permissionHandler then
      { v with page := { v.page with featurePermissions :=
          v.page.featurePermissions ++
            [{ securityOrigin := securityOrigin, feature := feature,
               verdict := permissionVerdict securityOrigin feature }] } }
    else v)

/-- The verdict on record for `(origin, feature)` on a page: the last answer
given, `PermissionUnknown` when there is none. -/
def WebEnginePage.verdictFor (p : WebEnginePage) (securityOrigin : QUrl) (feature : Nat) :
    PermissionPolicy :=
  match p.featurePermissions.reverse.find?
      (fun r => r.securityOrigin = securityOrigin ∧ r.feature = feature) with
  | some r => r.verdict
  | none => PermissionPolicy.PermissionUnknown

/-- The view at `a` raises `urlChanged(url)`. -/
def viewUrlChanged (s : MainWindow) (a : Nat) (url : String) : MainWindow :=
  match deref s (some a) with
  | none => s
  | some v =>
    match v.observerKey with
    | none => s
    | some key =>
      { s with notifications := s.notifications ++ [Notification.onWebViewURLChanged key url] }

/-- The view at `a` raises `titleChanged(title)`. -/
def viewTitleChanged (s : MainWindow) (a : Nat) (title : String) : MainWindow :=
  match deref s (some a) with
  | none => s
  | some v =>
    let s1 := if v.titleToWindow then { s with windowTitle := title } else s
    match v.observerKey with
    | none => s1
    | some key =>
      { s1 with notifications :=
          s1.notifications ++ [Notification.onWebViewTitleChanged key title] }

/-- The view at `a` raises `loadProgress(progress)`. -/
def viewLoadProgress (s : MainWindow) (a : Nat) (progress : Int) : MainWindow :=
  match deref s (some a) with
  | none => s
  | some v =>
    match v.observerKey with
    | none => s
    | some key =>
      { s with notifications :=
          s.notifications ++ [Notification.onWebViewLoadProgressChanged key progress] }

/-! ### Construction -/

/-- The state the constructor starts from: member initialisers, the panel
widget set up and hidden, the static counter at its initial value. -/
def MainWindow.blank (c : Startup) : MainWindow :=
  { nextKeyStatic := 0, views := [], children := [],
    quickWidget := { visible := false, width := c.panelWidth, height := c.panelHeight },
    inputPanel := if c.panelLoaded then some c.windowWidth else none,
    windowTitle := "", notifications := [] }

/-- The handle the constructor takes from `nextKey()` for the main view. -/
def MainWindow.mainKey (c : Startup) : Nat :=
  (nextKey (MainWindow.blank c)).1

/-- `MainWindow::MainWindow`: the first window of the process. -/
def MainWindow.construct (c : Startup) : MainWindow :=
  let r := nextKey (MainWindow.blank c)
  let key := r.1
  let r2 := addWebView r.2 key
  updateView r2.2 r2.1 (fun v =>
    { v with page := { v.page with webChannel := true, permissionHandler := true },
             url := c.mainViewUrl,
             geometry := { x := 0, y := 0, w := c.mainViewWidth, h := c.mainViewHeight },
             autoFillBackground := false,
             titleToWindow := true })

/-! ## Traces -/

/-- Everything that can happen to the window after construction. -/
inductive Op where
  | createWebViewRequested
  | destroyWebViewRequested (key : Nat)
  | urlChangeRequested (key : Nat) (url : String)
  | geometryChangeRequested (key : Nat) (x y w h : Int)
  | visibleChangeRequested (key : Nat) (value : Bool)
  | transparentBackgroundChangeRequested (key : Nat) (value : Bool)
  | stackUnder (topKey underKey : Nat)
  | stackOnTop (key : Nat)
  | lookupWebView (key : Nat)
  | lookupVisibleWebView
  | activeChanged (a : Bool)
  | heightChanged (h : Int)
  | resizeEvent (width : Int)
  | viewUrlChanged (a : Nat) (url : String)
  | viewTitleChanged (a : Nat) (title : String)
  | viewLoadProgress (a : Nat) (progress : Int)
  | featurePermissionRequested (a : Nat) (securityOrigin : QUrl) (feature : Nat)
  deriving DecidableEq, Repr

/-- What an operation hands back. -/
inductive Reply where
  | done
  | key (k : Nat)
  | view (p : Option Nat)
  | nullDeref
  deriving DecidableEq, Repr

/-- One operation. -/
def step (s : MainWindow) : Op → MainWindow × Reply
  | Op.createWebViewRequested =>
    let r := onCreateWebViewRequested s
    (r.2, Reply.key r.1)
  | Op.destroyWebViewRequested key => (onDestroyWebViewRequested s key, Reply.done)
  | Op.urlChangeRequested key url => (onWebViewURLChangeRequested s key url, Reply.done)
  | Op.geometryChangeRequested key x y w h =>
    (onWebViewGeometryChangeRequested s key x y w h, Reply.done)
  | Op.visibleChangeRequested key value =>
    (onWebViewVisibleChangeRequested s key value, Reply.done)
  | Op.transparentBackgroundChangeRequested key value =>
    (onWebViewTransparentBackgroundChangeRequested s key value, Reply.done)
  | Op.stackUnder topKey underKey => (onWebViewStackUnder s topKey underKey, Reply.done)
  | Op.stackOnTop key => (onWebViewStackOnTop s key, Reply.done)
  | Op.lookupWebView key => (s, Reply.view (lookupWebView s key))
  | Op.lookupVisibleWebView =>
    match lookupVisibleWebView s with
    | (s1, Lookup.found p) => (s1, Reply.view p)
    | (s1, Lookup.nullDeref) => (s1, Reply.nullDeref)
  | Op.activeChanged a => (onActiveChanged s a, Reply.done)
  | Op.heightChanged h => (onHeightChanged s h, Reply.done)
  | Op.resizeEvent width => (resizeEvent s width, Reply.done)
  | Op.viewUrlChanged a url => (viewUrlChanged s a url, Reply.done)
  | Op.viewTitleChanged a title => (viewTitleChanged s a title, Reply.done)
  | Op.viewLoadProgress a progress => (viewLoadProgress s a progress, Reply.done)
  | Op.featurePermissionRequested a o f => (featurePermissionRequested s a o f, Reply.done)

/-- Outcome of a run: the last state, the handles the create requests
returned (in call order), and whether the run ended in a null dereference. -/
structure Trace where
  state : MainWindow
  keys : List Nat
  crashed : Bool
  deriving DecidableEq, Repr

/-- Runs the operations in order; a null dereference ends the run. -/
def run (s : MainWindow) : List Op → Trace
  | [] => { state := s, keys := [], crashed := false }
  | op :: ops =>
    match step s op with
    | (s1, Reply.nullDeref) => { state := s1, keys := [], crashed := true }
    | (s1, Reply.key k) =>
      let t := run s1 ops
      { t with keys := k :: t.keys }
    | (s1, _) => run s1 ops

/-- Number of create requests in a list of operations. -/
def allocations : List Op → Nat
  | [] => 0
  | Op.createWebViewRequested :: ops => allocations ops + 1
  | _ :: ops => allocations ops

/-- All handles `nextKey` handed out: the constructor's, then those of the
create requests of the run. -/
def handles (c : Startup) (ops : List Op) : List Nat :=
  MainWindow.mainKey c :: (run (MainWindow.construct c) ops).keys

/-- The fill flag and page background of a view. -/
def fillState (v : QWebEngineView) : Bool × Color :=
  (v.autoFillBackground, v.page.backgroundColor)

/-- The transparent-background requests for one handle, sent in order. -/
def sendTransparent (s : MainWindow) (key : Nat) : List Bool → MainWindow
  | [] => s
  | value :: rest =>
    sendTransparent (onWebViewTransparentBackgroundChangeRequested s key value) key rest

/-- The operations `ops`, run on the freshly constructed window, end without a
null dereference in state `s`. -/
def reachedBy (c : Startup) (ops : List Op) (s : MainWindow) : Prop :=
  (run (MainWindow.construct c) ops).crashed = false ∧
  (run (MainWindow.construct c) ops).state = s

/-- Follows the spec's words for `lookup_first_visible`: a linear scan of the
entries in order that returns the first entry whose view is visible, and the
empty result when there is none. Kept apart from `lookupVisibleWebView`, which
is the source's function. -/
def firstVisibleEntry (s : MainWindow) : Option Nat :=
  match s.views.find? (fun e =>
      match deref s e.2 with
      | some v => v.visible
      | none => false) with
  | some e => e.2
  | none => none

/-- A start-up used for concrete runs: an 800x600 main view on localhost. -/
def demoStartup : Startup :=
  { mainViewUrl := "http://localhost:3000/", mainViewWidth := 800, mainViewHeight := 600,
    windowWidth := 800, panelLoaded := true, panelWidth := 800, panelHeight := 0 }

/-- The origin `http://localhost:1234`. -/
def localhostOrigin : QUrl :=
  { scheme := "http", host := "localhost", port := some 1234, path := "" }

/-- The origin `http://example.com`. -/
def exampleOrigin : QUrl :=
  { scheme := "http", host := "example.com", port := none, path := "" }

/-- A run of `n` create requests and nothing else. -/
def createRun (n : Nat) : List Op :=
  List.replicate n Op.createWebViewRequested

/-- A run that leaves a hole at handle 0: a second view is created, the main
view is destroyed, and the second view is shown. -/
def holeOps : List Op :=
  [Op.createWebViewRequested, Op.destroyWebViewRequested 0, Op.visibleChangeRequested 1 true]

/-- The state after `holeOps` on a new window. -/
def holeState : MainWindow :=
  (run (MainWindow.construct demoStartup) holeOps).state

/-- A shorter run with a hole at handle 0 and no view shown. -/
def hiddenHoleOps : List Op :=
  [Op.createWebViewRequested, Op.destroyWebViewRequested 0]

/-- The state after `hiddenHoleOps` on a new window. -/
def hiddenHoleState : MainWindow :=
  (run (MainWindow.construct demoStartup) hiddenHoleOps).state

/-- The state after two create requests on a new window: three views. -/
def threeViews : MainWindow :=
  (run (MainWindow.construct demoStartup)
    [Op.createWebViewRequested, Op.createWebViewRequested]).state

/-- The connections made for a view: those of the constructor (permission
handler on the page, title to the window) or those of the create handler (the
three observers with their handle). -/
def connections (v : QWebEngineView) : Bool × Bool × Option Nat :=
  (v.page.permissionHandler, v.titleToWindow, v.observerKey)

/-- What holds of the window between operations: every entry of the mapping
holds a non-null pointer to a child of `browserWidget`, no two entries hold
the same pointer, and every view has either the constructor's connections or
the create handler's. -/
def WellFormed (s : MainWindow) : Prop :=
  (∀ e ∈ s.views, ∃ a, e.2 = some a ∧ ∃ v ∈ s.children, v.addr = a) ∧
  (s.views.map (fun e => e.2)).Nodup ∧
  (∀ v ∈ s.children,
    connections v = (true, true, none) ∨ ∃ key, connections v = (false, false, some key))

/-! ## Facts about the mapping -/

theorem QMap.contains_remove_self {V : Type} (m : QMap V) (key : Nat) :
    QMap.contains (QMap.remove m key) key = false := by
  induction m with
  | nil => rfl
  | cons e m ih =>
    unfold QMap.remove QMap.contains at *
    by_cases h : e.1 = key <;> simp_all [List.filter_cons]

theorem lookupWebView_absent (s : MainWindow) (key : Nat)
    (h : QMap.contains s.views key = false) : lookupWebView s key = none := by
  simp [lookupWebView, h]

/-! ## Facts about view pointers -/

theorem find_map_update (l : List QWebEngineView) (a : Nat)
    (f : QWebEngineView → QWebEngineView) (hf : ∀ v, (f v).addr = v.addr) :
    (l.map (fun v => if v.addr = a then f v else v)).find? (fun v => v.addr == a)
      = (l.find? (fun v => v.addr == a)).map f := by
  induction l with
  | nil => rfl
  | cons c l ih =>
    by_cases h : c.addr = a
    · simp [List.find?_cons, h, hf]
    · simp [List.find?_cons, h, ih]

theorem deref_updateView (s : MainWindow) (a : Nat)
    (f : QWebEngineView → QWebEngineView) (hf : ∀ v, (f v).addr = v.addr) :
    deref (updateView s a f) (some a) = (deref s (some a)).map f := by
  simp only [deref, updateView]
  exact find_map_update s.children a f hf

theorem lookupWebView_updateView (s : MainWindow) (a key : Nat)
    (f : QWebEngineView → QWebEngineView) :
    lookupWebView (updateView s a f) key = lookupWebView s key := rfl

/-! ## Overlay panel -/

/-- C10: starting from the freshly constructed window the panel is hidden;
`onActiveChanged(a)` sets the visible flag to `a` and keeps height and width,
`onHeightChanged(h)` sets the height to `h` and keeps the visible flag and the
width; so a height change while hidden updates the height and the panel stays
invisible, `true` shows the panel and `false` hides it again. -/
theorem overlay_panel_slots (c : Startup) (s : MainWindow) (a : Bool) (h : Int) :
    (MainWindow.construct c).quickWidget.visible = false ∧
    (onActiveChanged s a).quickWidget =
      { visible := a, width := s.quickWidget.width, height := s.quickWidget.height } ∧
    (onActiveChanged s a).inputPanel = s.inputPanel ∧
    (onHeightChanged s h).quickWidget =
      { visible := s.quickWidget.visible, width := s.quickWidget.width, height := h } ∧
    (onHeightChanged s h).inputPanel = s.inputPanel ∧
    (onHeightChanged (MainWindow.construct c) h).quickWidget =
      { visible := false, width := c.panelWidth, height := h } ∧
    (onActiveChanged (MainWindow.construct c) true).quickWidget.visible = true ∧
    (onActiveChanged (onActiveChanged (MainWindow.construct c) true) false).quickWidget
      = (MainWindow.construct c).quickWidget := by
  refine ⟨rfl, rfl, rfl, rfl, rfl, rfl, rfl, rfl⟩

/-! ## Requests with a handle that does not resolve -/

theorem onWebViewStackUnder_left_null (s : MainWindow) (topKey underKey : Nat)
    (h : lookupWebView s topKey = none) : onWebViewStackUnder s topKey underKey = s := by
  simp [onWebViewStackUnder, h]

theorem onWebViewStackUnder_right_null (s : MainWindow) (topKey underKey : Nat)
    (h : lookupWebView s underKey = none) : onWebViewStackUnder s topKey underKey = s := by
  unfold onWebViewStackUnder
  rw [h]
  cases lookupWebView s topKey <;> rfl

/-- C3: for a handle that is not in the mapping, every control-channel request
that takes a handle (destroy, navigate, set geometry, set visible, set
transparent background, raise to top, and stack under with that handle in
either position) leaves the whole state as it was, notifications included, and
replies normally. -/
theorem unknown_handle_requests_change_nothing (s : MainWindow) (key : Nat)
    (h : QMap.contains s.views key = false) :
    step s (Op.destroyWebViewRequested key) = (s, Reply.done) ∧
    (∀ url, step s (Op.urlChangeRequested key url) = (s, Reply.done)) ∧
    (∀ x y w ht, step s (Op.geometryChangeRequested key x y w ht) = (s, Reply.done)) ∧
    (∀ value, step s (Op.visibleChangeRequested key value) = (s, Reply.done)) ∧
    (∀ value, step s (Op.transparentBackgroundChangeRequested key value) = (s, Reply.done)) ∧
    step s (Op.stackOnTop key) = (s, Reply.done) ∧
    (∀ other, step s (Op.stackUnder key other) = (s, Reply.done)) ∧
    (∀ other, step s (Op.stackUnder other key) = (s, Reply.done)) := by
  have hl : lookupWebView s key = none := lookupWebView_absent s key h
  refine ⟨?_, ?_, ?_, ?_, ?_, ?_, ?_, ?_⟩
  · simp [step, onDestroyWebViewRequested, hl]
  · intro url
    simp [step, onWebViewURLChangeRequested, hl]
  · intro x y w ht
    simp [step, onWebViewGeometryChangeRequested, hl]
  · intro value
    simp [step, onWebViewVisibleChangeRequested, hl]
  · intro value
    simp [step, onWebViewTransparentBackgroundChangeRequested, hl]
  · simp [step, onWebViewStackOnTop, hl]
  · intro other
    simp [step, onWebViewStackUnder_left_null s key other hl]
  · intro other
    simp [step, onWebViewStackUnder_right_null s other key hl]

/-! ## Destroy -/

theorem lookupWebView_after_destroy (s : MainWindow) (key : Nat) :
    lookupWebView (onDestroyWebViewRequested s key) key = none := by
  unfold onDestroyWebViewRequested
  cases hl : lookupWebView s key with
  | none => simpa using hl
  | some a =>
    apply lookupWebView_absent
    exact QMap.contains_remove_self _ key

/-- C2: after the destroy request for a handle, `lookupWebView` of that handle
returns the null pointer, and a second destroy request for the same handle
leaves the whole state exactly as the first one left it. -/
theorem destroy_then_lookup_is_null_and_second_destroy_is_noop (s : MainWindow) (key : Nat) :
    lookupWebView (step s (Op.destroyWebViewRequested key)).1 key = none ∧
    step (step s (Op.destroyWebViewRequested key)).1 (Op.destroyWebViewRequested key)
      = ((step s (Op.destroyWebViewRequested key)).1, Reply.done) := by
  have h1 := lookupWebView_after_destroy s key
  refine ⟨h1, ?_⟩
  show (onDestroyWebViewRequested (onDestroyWebViewRequested s key) key, Reply.done) = _
  have h2 : onDestroyWebViewRequested (onDestroyWebViewRequested s key) key
      = onDestroyWebViewRequested s key := by
    generalize onDestroyWebViewRequested s key = s1 at h1 ⊢
    simp [onDestroyWebViewRequested, h1]
  rw [h2]
  rfl

/-! ## Fresh addresses -/

theorem lt_freshAddr (children : List QWebEngineView) (v : QWebEngineView)
    (h : v ∈ children) : v.addr < freshAddr children := by
  induction children with
  | nil => cases h
  | cons c cs ih =>
    simp only [freshAddr, List.map_cons, List.foldr_cons] at ih ⊢
    rcases List.mem_cons.mp h with rfl | h
    · omega
    · have := ih h
      omega

theorem find_freshAddr (children : List QWebEngineView) :
    children.find? (fun v => v.addr == freshAddr children) = none := by
  rw [List.find?_eq_none]
  intro v hv
  have := lt_freshAddr children v hv
  simp
  omega

theorem deref_addWebView (s : MainWindow) (key : Nat) :
    deref (addWebView s key).2 (some (addWebView s key).1)
      = some { QWebEngineView.fresh (freshAddr s.children) with
                autoFillBackground := true, page := WebEnginePage.fresh } := by
  simp [deref, addWebView, List.find?_append, find_freshAddr, QWebEngineView.fresh]

/-! ## Transparent background -/

theorem transparent_request_fill (s : MainWindow) (key a : Nat) (value : Bool)
    (hl : lookupWebView s key = some a) (hv : (deref s (some a)).isSome = true) :
    (deref (onWebViewTransparentBackgroundChangeRequested s key value) (some a)).map fillState
      = some (!value, if value then Color.transparent else Color.white) ∧
    lookupWebView (onWebViewTransparentBackgroundChangeRequested s key value) key = some a ∧
    (deref (onWebViewTransparentBackgroundChangeRequested s key value) (some a)).isSome
      = true := by
  obtain ⟨v, hv⟩ := Option.isSome_iff_exists.mp hv
  unfold onWebViewTransparentBackgroundChangeRequested
  rw [hl]
  cases value
  · simp [deref_updateView, lookupWebView_updateView, hv, fillState, hl]
  · simp [deref_updateView, lookupWebView_updateView, hv, fillState, hl]

theorem sendTransparent_fill (key a : Nat) (before : List Bool) (last : Bool) :
    ∀ s : MainWindow, lookupWebView s key = some a → (deref s (some a)).isSome = true →
    (deref (sendTransparent s key (before ++ [last])) (some a)).map fillState
      = some (!last, if last then Color.transparent else Color.white) := by
  induction before with
  | nil =>
    intro s hl hv
    exact (transparent_request_fill s key a last hl hv).1
  | cons b bs ih =>
    intro s hl hv
    have h := transparent_request_fill s key a b hl hv
    exact ih _ h.2.1 h.2.2

/-- C9: for a handle that resolves to a view, whatever the view's fill flag and
page background were: after the request `(h, true)` the fill is off and the
page background transparent; after `(h, true)` then `(h, false)` the fill is
on and the page background white, the fill state `addWebView` gives a new
view; and after any series of such requests for `h` the fill state is the one
of the last value sent. -/
theorem transparent_background_follows_last_value (s : MainWindow) (key a : Nat)
    (v : QWebEngineView) (hl : lookupWebView s key = some a) (hv : deref s (some a) = some v) :
    (deref (onWebViewTransparentBackgroundChangeRequested s key true) (some a)).map fillState
      = some (false, Color.transparent) ∧
    (deref (onWebViewTransparentBackgroundChangeRequested
        (onWebViewTransparentBackgroundChangeRequested s key true) key false) (some a)).map
        fillState = some (true, Color.white) ∧
    (∀ s0 k0, (deref (addWebView s0 k0).2 (some (addWebView s0 k0).1)).map fillState
      = some (true, Color.white)) ∧
    (∀ (before : List Bool) (last : Bool),
      (deref (sendTransparent s key (before ++ [last])) (some a)).map fillState
        = some (!last, if last then Color.transparent else Color.white)) := by
  have hs : (deref s (some a)).isSome = true := by simp [hv]
  refine ⟨?_, ?_, ?_, ?_⟩
  · exact (transparent_request_fill s key a true hl hs).1
  · exact sendTransparent_fill key a [true] false s hl hs
  · intro s0 k0
    rw [deref_addWebView]
    rfl
  · intro before last
    exact sendTransparent_fill key a before last s hl hs

/-! ## Paint order -/

theorem filter_insertBefore (p under : Nat) (v : QWebEngineView) (hv : v.addr = p)
    (l : List QWebEngineView) :
    (insertBefore under v l).filter (fun c => !(c.addr == p))
      = l.filter (fun c => !(c.addr == p)) := by
  induction l with
  | nil => rfl
  | cons c cs ih =>
    unfold insertBefore
    by_cases h : c.addr = under
    · simp [h, List.filter_cons, hv]
    · simp only [h, if_false, List.filter_cons, ih]

theorem find_insertBefore (p under : Nat) (v : QWebEngineView) (hv : v.addr = p)
    (l : List QWebEngineView) (hp : ∀ c ∈ l, c.addr ≠ p)
    (hu : l.any (fun c => c.addr == under) = true) :
    (insertBefore under v l).find? (fun c => c.addr == p) = some v := by
  induction l with
  | nil => simp at hu
  | cons c cs ih =>
    unfold insertBefore
    by_cases h : c.addr = under
    · simp [h, List.find?_cons, hv]
    · have hc : c.addr ≠ p := hp c (List.mem_cons_self _ _)
      have hu2 : cs.any (fun c => c.addr == under) = true := by
        simpa [List.any_cons, h] using hu
      simp only [h, if_false, List.find?_cons]
      have : (c.addr == p) = false := by simpa using hc
      rw [this]
      exact ih (fun c hc => hp c (List.mem_cons_of_mem _ hc)) hu2

theorem filter_stackUnder (l : List QWebEngineView) (p q : Nat) :
    (stackUnder l p q).filter (fun c => !(c.addr == p))
      = l.filter (fun c => !(c.addr == p)) := by
  unfold stackUnder
  split
  · rfl
  · split
    · rfl
    · rename_i v hv
      split
      · have hvp : v.addr = p := by simpa using List.find?_some hv
        rw [filter_insertBefore p q v hvp, List.filter_filter]
        simp
      · rfl

theorem find_stackUnder (l : List QWebEngineView) (p q : Nat) :
    (stackUnder l p q).find? (fun c => c.addr == p) = l.find? (fun c => c.addr == p) := by
  unfold stackUnder
  split
  · rfl
  · rename_i hpq
    split
    · rfl
    · rename_i v hv
      split
      · rename_i hq
        have hvp : v.addr = p := by simpa using List.find?_some hv
        rw [hv]
        apply find_insertBefore p q v hvp
        · intro c hc
          simpa using (List.mem_filter.mp hc).2
        · rw [List.any_eq_true] at hq ⊢
          obtain ⟨c, hc, hcq⟩ := hq
          refine ⟨c, List.mem_filter.mpr ⟨hc, ?_⟩, hcq⟩
          have : c.addr = q := by simpa using hcq
          simp only [Bool.not_eq_true', beq_eq_false_iff_ne, ne_eq, this]
          exact fun h => hpq h.symm
      · rfl

theorem onWebViewStackUnder_views (s : MainWindow) (a b : Nat) :
    (onWebViewStackUnder s a b).views = s.views := by
  unfold onWebViewStackUnder
  split <;> rfl

theorem onWebViewStackUnder_children (s : MainWindow) (a b p : Nat)
    (hl : lookupWebView s a = some p) :
    (onWebViewStackUnder s a b).children.find? (fun c => c.addr == p)
        = s.children.find? (fun c => c.addr == p) ∧
    (onWebViewStackUnder s a b).children.filter (fun c => !(c.addr == p))
        = s.children.filter (fun c => !(c.addr == p)) := by
  unfold onWebViewStackUnder
  rw [hl]
  cases lookupWebView s b with
  | none => exact ⟨rfl, rfl⟩
  | some q => exact ⟨find_stackUnder _ p q, filter_stackUnder _ p q⟩

/-- C8: for every paint order and all handles `a`, `b` with `a` resolving to a
view, the stack-under request `(a, b)` followed by the raise-to-top request
`(a)` leaves the view of `a` last in the child list (painted on top), keeps
the order of all other views, and changes nothing else in the window. -/
theorem stack_under_then_raise_puts_view_on_top (s : MainWindow) (a b p : Nat)
    (v : QWebEngineView) (hl : lookupWebView s a = some p) (hv : deref s (some p) = some v) :
    (onWebViewStackOnTop (onWebViewStackUnder s a b) a).children.getLast? = some v ∧
    v.addr = p ∧
    (onWebViewStackOnTop (onWebViewStackUnder s a b) a).children.filter
        (fun c => !(c.addr == p))
      = s.children.filter (fun c => !(c.addr == p)) ∧
    { onWebViewStackOnTop (onWebViewStackUnder s a b) a with children := s.children } = s := by
  have hc := onWebViewStackUnder_children s a b p hl
  have hvs := onWebViewStackUnder_views s a b
  have hl1 : lookupWebView (onWebViewStackUnder s a b) a = some p := by
    simpa [lookupWebView, hvs] using hl
  have hv0 : s.children.find? (fun c => c.addr == p) = some v := hv
  have hf : (onWebViewStackUnder s a b).children.find? (fun c => c.addr == p) = some v := by
    rw [hc.1]
    exact hv0
  have hrest : { onWebViewStackUnder s a b with children := s.children } = s := by
    unfold onWebViewStackUnder
    split <;> rfl
  have hvp : v.addr = p := by simpa using List.find?_some hv0
  unfold onWebViewStackOnTop
  rw [hl1]
  simp only [raise, hf]
  refine ⟨by simp, hvp, ?_, hrest⟩
  rw [List.filter_append, List.filter_filter]
  simp [hvp, hc.2]

/-! ## More facts about the mapping -/

theorem QMap.contains_eq_isSome {V : Type} (m : QMap V) (key : Nat) :
    QMap.contains m key = (m.find? (fun e => e.1 == key)).isSome := by
  induction m with
  | nil => rfl
  | cons e m ih =>
    unfold QMap.contains at ih ⊢
    by_cases h : e.1 = key <;> simp [List.find?_cons, h, ih]

theorem lookupWebView_eq_find (s : MainWindow) (key : Nat) :
    lookupWebView s key = (s.views.find? (fun e => e.1 == key)).bind (fun e => e.2) := by
  unfold lookupWebView QMap.value
  rw [QMap.contains_eq_isSome]
  cases s.views.find? (fun e => e.1 == key) <;> rfl

theorem QMap.find_insert_self {V : Type} (m : QMap V) (key : Nat) (v : V) :
    (QMap.insert m key v).find? (fun e => e.1 == key) = some (key, v) := by
  induction m with
  | nil => simp [QMap.insert]
  | cons e m ih =>
    unfold QMap.insert
    split
    · simp
    · split
      · simp
      · rename_i h1 h2
        have : (e.1 == key) = false := by simpa using fun h => h2 h.symm
        simp only [List.find?_cons, this]
        exact ih

theorem QMap.find_insert_of_ne {V : Type} (m : QMap V) (key other : Nat) (v : V)
    (h : other ≠ key) :
    (QMap.insert m key v).find? (fun e => e.1 == other)
      = m.find? (fun e => e.1 == other) := by
  have hk : (key == other) = false := by simpa using fun h2 => h h2.symm
  induction m with
  | nil => simp [QMap.insert, hk]
  | cons e m ih =>
    unfold QMap.insert
    split
    · simp [List.find?_cons, hk]
    · split
      · rename_i h1 h2
        have : (e.1 == other) = false := by rw [← h2]; exact hk
        simp [List.find?_cons, hk, this]
      · simp only [List.find?_cons, ih]

theorem QMap.size_insert_of_absent {V : Type} (m : QMap V) (key : Nat) (v : V)
    (h : QMap.contains m key = false) :
    QMap.size (QMap.insert m key v) = QMap.size m + 1 := by
  induction m with
  | nil => rfl
  | cons e m ih =>
    unfold QMap.contains at h ih
    simp only [List.any_cons, Bool.or_eq_false_iff, beq_eq_false_iff_ne, ne_eq] at h
    unfold QMap.insert
    split
    · rfl
    · split
      · rename_i h2
        exact absurd h2.symm h.1
      · have := ih h.2
        simp only [QMap.size, List.length_cons] at this ⊢
        omega

theorem QMap.mem_insert {V : Type} (m : QMap V) (key : Nat) (v : V) (e : Nat × V)
    (h : e ∈ QMap.insert m key v) : e = (key, v) ∨ e ∈ m := by
  induction m with
  | nil =>
    left
    simpa [QMap.insert] using h
  | cons e0 m ih =>
    unfold QMap.insert at h
    split at h
    · rcases List.mem_cons.mp h with h | h
      · exact Or.inl h
      · exact Or.inr h
    · split at h
      · rcases List.mem_cons.mp h with h | h
        · exact Or.inl h
        · exact Or.inr (List.mem_cons_of_mem _ h)
      · rcases List.mem_cons.mp h with h | h
        · exact Or.inr (h ▸ List.mem_cons_self _ _)
        · rcases ih h with h | h
          · exact Or.inl h
          · exact Or.inr (List.mem_cons_of_mem _ h)

/-! ## The create handler -/

theorem map_update_fresh (children : List QWebEngineView)
    (f : QWebEngineView → QWebEngineView) :
    children.map (fun v => if v.addr = freshAddr children then f v else v) = children := by
  conv_rhs => rw [← List.map_id children]
  apply List.map_congr_left
  intro v hv
  have := lt_freshAddr children v hv
  have hne : v.addr ≠ freshAddr children := by omega
  simp [hne]

theorem onCreateWebViewRequested_children (s : MainWindow) :
    (onCreateWebViewRequested s).2.children
      = s.children ++
        [{ QWebEngineView.fresh (freshAddr s.children) with
            autoFillBackground := true, page := WebEnginePage.fresh,
            observerKey := some s.nextKeyStatic }] := by
  simp only [onCreateWebViewRequested, updateView, addWebView, nextKey, List.map_append,
    map_update_fresh]
  simp [QWebEngineView.fresh]

theorem onCreateWebViewRequested_views (s : MainWindow) :
    (onCreateWebViewRequested s).2.views
      = QMap.insert s.views s.nextKeyStatic (some (freshAddr s.children)) := rfl

theorem onCreateWebViewRequested_key (s : MainWindow) :
    (onCreateWebViewRequested s).1 = s.nextKeyStatic := rfl

theorem lookupWebView_created (s : MainWindow) :
    lookupWebView (onCreateWebViewRequested s).2 (onCreateWebViewRequested s).1
      = some (freshAddr s.children) := by
  rw [lookupWebView_eq_find, onCreateWebViewRequested_views, onCreateWebViewRequested_key,
    QMap.find_insert_self]
  rfl

theorem deref_created (s : MainWindow) :
    deref (onCreateWebViewRequested s).2 (some (freshAddr s.children))
      = some { QWebEngineView.fresh (freshAddr s.children) with
                autoFillBackground := true, page := WebEnginePage.fresh,
                observerKey := some s.nextKeyStatic } := by
  simp only [deref]
  rw [onCreateWebViewRequested_children, List.find?_append, find_freshAddr]
  simp [QWebEngineView.fresh]

/-! ## Feature permissions -/

theorem verdictFor_after_answer (p : WebEnginePage) (o : QUrl) (f : Nat)
    (verdict : PermissionPolicy) :
    WebEnginePage.verdictFor
      { p with featurePermissions :=
          p.featurePermissions ++ [{ securityOrigin := o, feature := f, verdict := verdict }] }
      o f = verdict := by
  simp [WebEnginePage.verdictFor]

/-! ## The visible-view lookup -/

theorem index_unchanged_of_deref (s : MainWindow) (i : Nat) (v : QWebEngineView)
    (h : deref { s with views := (QMap.index s.views i).1 } (QMap.index s.views i).2 = some v) :
    (QMap.index s.views i).1 = s.views := by
  unfold QMap.index at h ⊢
  split
  · rfl
  · rename_i hc
    simp only [hc] at h
    cases h

theorem lookupVisibleFrom_found (fuel : Nat) :
    ∀ (i : Nat) (s s1 : MainWindow) (p : Option Nat),
      lookupVisibleFrom s fuel i = some (s1, Lookup.found p) → s1 = s := by
  induction fuel with
  | zero =>
    intro i s s1 p h
    cases h
  | succ n ih =>
    intro i s s1 p h
    unfold lookupVisibleFrom at h
    split at h
    · simp only at h
      split at h
      · cases h
      · rename_i v hv
        have hidx := index_unchanged_of_deref s i v hv
        have hs : ({ s with views := (QMap.index s.views i).1 } : MainWindow) = s := by
          rw [hidx]
        rw [hs] at h
        split at h
        · simp only [Option.some.injEq, Prod.mk.injEq] at h
          exact h.1.symm
        · exact ih _ _ _ _ h
    · simp only [Option.some.injEq, Prod.mk.injEq] at h
      exact h.1.symm

theorem lookupVisibleFrom_frame (fuel : Nat) :
    ∀ (i : Nat) (s s1 : MainWindow) (r : Lookup),
      lookupVisibleFrom s fuel i = some (s1, r) → { s1 with views := s.views } = s := by
  induction fuel with
  | zero =>
    intro i s s1 r h
    cases h
  | succ n ih =>
    intro i s s1 r h
    unfold lookupVisibleFrom at h
    split at h
    · simp only at h
      split at h
      · simp only [Option.some.injEq, Prod.mk.injEq] at h
        rw [← h.1]
      · rename_i v hv
        have hidx := index_unchanged_of_deref s i v hv
        have hs : ({ s with views := (QMap.index s.views i).1 } : MainWindow) = s := by
          rw [hidx]
        rw [hs] at h
        split at h
        · simp only [Option.some.injEq, Prod.mk.injEq] at h
          rw [← h.1]
        · exact ih _ _ _ _ h
    · simp only [Option.some.injEq, Prod.mk.injEq] at h
      rw [← h.1]

/-- The fuel given by `lookupVisibleWebView` is enough: the loop always ends,
with a pointer or at a null dereference. -/
theorem lookupVisibleFrom_fuel (n : Nat) :
    ∀ (i : Nat) (s : MainWindow), QMap.size s.views ≤ i + n →
      (lookupVisibleFrom s (n + 1) i).isSome = true := by
  induction n with
  | zero =>
    intro i s h
    unfold lookupVisibleFrom
    have : ¬ i < QMap.size s.views := by omega
    simp [this]
  | succ n ih =>
    intro i s h
    unfold lookupVisibleFrom
    split
    · simp only
      split
      · rfl
      · rename_i v hv
        have hidx := index_unchanged_of_deref s i v hv
        have hs : ({ s with views := (QMap.index s.views i).1 } : MainWindow) = s := by
          rw [hidx]
        rw [hs]
        split
        · rfl
        · apply ih
          omega
    · rfl

theorem lookupVisibleWebView_eq (s : MainWindow) :
    lookupVisibleFrom s (QMap.size s.views + 1) 0 = some (lookupVisibleWebView s) := by
  have h := lookupVisibleFrom_fuel (QMap.size s.views) 0 s (by omega)
  unfold lookupVisibleWebView
  cases hr : lookupVisibleFrom s (QMap.size s.views + 1) 0 with
  | none => rw [hr] at h; cases h
  | some r => rfl

theorem lookupVisibleWebView_found (s : MainWindow) (p : Option Nat)
    (h : (lookupVisibleWebView s).2 = Lookup.found p) : (lookupVisibleWebView s).1 = s := by
  have he := lookupVisibleWebView_eq s
  apply lookupVisibleFrom_found _ 0 s _ p
  rw [he, ← h]

theorem lookupVisibleWebView_frame (s : MainWindow) :
    { (lookupVisibleWebView s).1 with views := s.views } = s :=
  lookupVisibleFrom_frame _ 0 s _ _ (lookupVisibleWebView_eq s)

/-! ## What one operation does to the counter and the mapping -/

theorem updateView_views (s : MainWindow) (a : Nat) (f : QWebEngineView → QWebEngineView) :
    (updateView s a f).views = s.views := rfl

theorem updateView_nextKeyStatic (s : MainWindow) (a : Nat)
    (f : QWebEngineView → QWebEngineView) :
    (updateView s a f).nextKeyStatic = s.nextKeyStatic := rfl

theorem onDestroyWebViewRequested_frame (s : MainWindow) (key : Nat) :
    (onDestroyWebViewRequested s key).nextKeyStatic = s.nextKeyStatic ∧
    ∀ e ∈ (onDestroyWebViewRequested s key).views, e ∈ s.views := by
  unfold onDestroyWebViewRequested
  split
  · exact ⟨rfl, fun _ h => h⟩
  · refine ⟨rfl, fun e h => ?_⟩
    exact (List.mem_filter.mp h).1

theorem onWebViewURLChangeRequested_frame (s : MainWindow) (key : Nat) (url : String) :
    (onWebViewURLChangeRequested s key url).nextKeyStatic = s.nextKeyStatic ∧
    (onWebViewURLChangeRequested s key url).views = s.views := by
  unfold onWebViewURLChangeRequested
  split <;> exact ⟨rfl, rfl⟩

theorem onWebViewGeometryChangeRequested_frame (s : MainWindow) (key : Nat) (x y w h : Int) :
    (onWebViewGeometryChangeRequested s key x y w h).nextKeyStatic = s.nextKeyStatic ∧
    (onWebViewGeometryChangeRequested s key x y w h).views = s.views := by
  unfold onWebViewGeometryChangeRequested
  split <;> exact ⟨rfl, rfl⟩

theorem onWebViewVisibleChangeRequested_frame (s : MainWindow) (key : Nat) (value : Bool) :
    (onWebViewVisibleChangeRequested s key value).nextKeyStatic = s.nextKeyStatic ∧
    (onWebViewVisibleChangeRequested s key value).views = s.views := by
  unfold onWebViewVisibleChangeRequested
  split <;> exact ⟨rfl, rfl⟩

theorem onWebViewTransparentBackgroundChangeRequested_frame (s : MainWindow) (key : Nat)
    (value : Bool) :
    (onWebViewTransparentBackgroundChangeRequested s key value).nextKeyStatic
      = s.nextKeyStatic ∧
    (onWebViewTransparentBackgroundChangeRequested s key value).views = s.views := by
  unfold onWebViewTransparentBackgroundChangeRequested
  split
  · exact ⟨rfl, rfl⟩
  · split <;> exact ⟨rfl, rfl⟩

theorem onWebViewStackUnder_frame (s : MainWindow) (a b : Nat) :
    (onWebViewStackUnder s a b).nextKeyStatic = s.nextKeyStatic ∧
    (onWebViewStackUnder s a b).views = s.views := by
  unfold onWebViewStackUnder
  split <;> exact ⟨rfl, rfl⟩

theorem onWebViewStackOnTop_frame (s : MainWindow) (key : Nat) :
    (onWebViewStackOnTop s key).nextKeyStatic = s.nextKeyStatic ∧
    (onWebViewStackOnTop s key).views = s.views := by
  unfold onWebViewStackOnTop
  split <;> exact ⟨rfl, rfl⟩

theorem resizeEvent_frame (s : MainWindow) (width : Int) :
    (resizeEvent s width).nextKeyStatic = s.nextKeyStatic ∧
    (resizeEvent s width).views = s.views := by
  unfold resizeEvent
  split <;> exact ⟨rfl, rfl⟩

theorem viewUrlChanged_frame (s : MainWindow) (a : Nat) (url : String) :
    (viewUrlChanged s a url).nextKeyStatic = s.nextKeyStatic ∧
    (viewUrlChanged s a url).views = s.views := by
  unfold viewUrlChanged
  split
  · exact ⟨rfl, rfl⟩
  · split <;> exact ⟨rfl, rfl⟩

theorem viewTitleChanged_frame (s : MainWindow) (a : Nat) (title : String) :
    (viewTitleChanged s a title).nextKeyStatic = s.nextKeyStatic ∧
    (viewTitleChanged s a title).views = s.views := by
  unfold viewTitleChanged
  split
  · exact ⟨rfl, rfl⟩
  · simp only
    split <;> split <;> exact ⟨rfl, rfl⟩

theorem viewLoadProgress_frame (s : MainWindow) (a : Nat) (progress : Int) :
    (viewLoadProgress s a progress).nextKeyStatic = s.nextKeyStatic ∧
    (viewLoadProgress s a progress).views = s.views := by
  unfold viewLoadProgress
  split
  · exact ⟨rfl, rfl⟩
  · split <;> exact ⟨rfl, rfl⟩

theorem step_lookupVisibleWebView (s : MainWindow) :
    (∀ k, (step s Op.lookupVisibleWebView).2 ≠ Reply.key k) ∧
    (step s Op.lookupVisibleWebView).1.nextKeyStatic = s.nextKeyStatic ∧
    ((step s Op.lookupVisibleWebView).2 ≠ Reply.nullDeref →
      (step s Op.lookupVisibleWebView).1 = s) := by
  have hf := lookupVisibleWebView_frame s
  have hfound := lookupVisibleWebView_found s
  simp only [step]
  generalize lookupVisibleWebView s = r at hf hfound
  obtain ⟨s1, l⟩ := r
  cases l with
  | found p =>
    refine ⟨(fun k h => by cases h), ?_, fun _ => hfound p rfl⟩
    rw [← hf]
  | nullDeref =>
    refine ⟨(fun k h => by cases h), ?_, fun h => absurd rfl h⟩
    rw [← hf]

/-- Any operation but the create request hands out no handle, keeps the
counter, and, unless it ends in a null dereference, adds no entry. -/
theorem step_not_create (s : MainWindow) (op : Op) (h : op ≠ Op.createWebViewRequested) :
    (∀ k, (step s op).2 ≠ Reply.key k) ∧
    (step s op).1.nextKeyStatic = s.nextKeyStatic ∧
    ((step s op).2 ≠ Reply.nullDeref → ∀ e ∈ (step s op).1.views, e ∈ s.views) := by
  cases op with
  | createWebViewRequested => exact absurd rfl h
  | destroyWebViewRequested key =>
    exact ⟨(fun k h => by cases h), (onDestroyWebViewRequested_frame s key).1,
      fun _ => (onDestroyWebViewRequested_frame s key).2⟩
  | urlChangeRequested key url =>
    have hf := onWebViewURLChangeRequested_frame s key url
    exact ⟨(fun k h => by cases h), hf.1, fun _ e he => by simpa [step, hf.2] using he⟩
  | geometryChangeRequested key x y w ht =>
    have hf := onWebViewGeometryChangeRequested_frame s key x y w ht
    exact ⟨(fun k h => by cases h), hf.1, fun _ e he => by simpa [step, hf.2] using he⟩
  | visibleChangeRequested key value =>
    have hf := onWebViewVisibleChangeRequested_frame s key value
    exact ⟨(fun k h => by cases h), hf.1, fun _ e he => by simpa [step, hf.2] using he⟩
  | transparentBackgroundChangeRequested key value =>
    have hf := onWebViewTransparentBackgroundChangeRequested_frame s key value
    exact ⟨(fun k h => by cases h), hf.1, fun _ e he => by simpa [step, hf.2] using he⟩
  | stackUnder a b =>
    have hf := onWebViewStackUnder_frame s a b
    exact ⟨(fun k h => by cases h), hf.1, fun _ e he => by simpa [step, hf.2] using he⟩
  | stackOnTop key =>
    have hf := onWebViewStackOnTop_frame s key
    exact ⟨(fun k h => by cases h), hf.1, fun _ e he => by simpa [step, hf.2] using he⟩
  | lookupWebView key => exact ⟨(fun k h => by cases h), rfl, fun _ e he => he⟩
  | lookupVisibleWebView =>
    have hf := step_lookupVisibleWebView s
    exact ⟨hf.1, hf.2.1, fun hn e he => by rw [hf.2.2 hn] at he; exact he⟩
  | activeChanged a => exact ⟨(fun k h => by cases h), rfl, fun _ e he => he⟩
  | heightChanged ht => exact ⟨(fun k h => by cases h), rfl, fun _ e he => he⟩
  | resizeEvent width =>
    have hf := resizeEvent_frame s width
    exact ⟨(fun k h => by cases h), hf.1, fun _ e he => by simpa [step, hf.2] using he⟩
  | viewUrlChanged a url =>
    have hf := viewUrlChanged_frame s a url
    exact ⟨(fun k h => by cases h), hf.1, fun _ e he => by simpa [step, hf.2] using he⟩
  | viewTitleChanged a title =>
    have hf := viewTitleChanged_frame s a title
    exact ⟨(fun k h => by cases h), hf.1, fun _ e he => by simpa [step, hf.2] using he⟩
  | viewLoadProgress a progress =>
    have hf := viewLoadProgress_frame s a progress
    exact ⟨(fun k h => by cases h), hf.1, fun _ e he => by simpa [step, hf.2] using he⟩
  | featurePermissionRequested a o f => exact ⟨(fun k h => by cases h), rfl, fun _ e he => he⟩

/-! ## Runs -/

theorem run_cons_create (s : MainWindow) (ops : List Op) :
    run s (Op.createWebViewRequested :: ops)
      = { run (onCreateWebViewRequested s).2 ops with
          keys := s.nextKeyStatic :: (run (onCreateWebViewRequested s).2 ops).keys } := rfl

theorem run_cons_crash (s : MainWindow) (op : Op) (ops : List Op)
    (h : (step s op).2 = Reply.nullDeref) :
    run s (op :: ops) = { state := (step s op).1, keys := [], crashed := true } := by
  unfold run
  generalize step s op = r at h
  obtain ⟨s1, rep⟩ := r
  simp only at h
  subst h
  rfl

theorem run_cons_other (s : MainWindow) (op : Op) (ops : List Op)
    (h : op ≠ Op.createWebViewRequested) (hn : (step s op).2 ≠ Reply.nullDeref) :
    run s (op :: ops) = run (step s op).1 ops := by
  have hk := (step_not_create s op h).1
  conv_lhs => unfold run
  generalize step s op = r at hn hk
  obtain ⟨s1, rep⟩ := r
  cases rep with
  | done => rfl
  | key k => exact absurd rfl (hk k)
  | view p => rfl
  | nullDeref => exact absurd rfl hn

theorem allocations_cons_other (op : Op) (ops : List Op)
    (h : op ≠ Op.createWebViewRequested) : allocations (op :: ops) = allocations ops := by
  cases op <;> first | rfl | exact absurd rfl h

/-! ## Handles along a run -/

theorem onCreateWebViewRequested_nextKeyStatic (s : MainWindow) :
    (onCreateWebViewRequested s).2.nextKeyStatic = (s.nextKeyStatic + 1) % 2 ^ 64 := rfl

/-- While the counter does not wrap, the handles of a run increase strictly,
starting at the counter's value. -/
theorem run_keys_increasing (ops : List Op) :
    ∀ s : MainWindow, s.nextKeyStatic + allocations ops ≤ 2 ^ 64 →
      (run s ops).keys.Pairwise (fun a b => a < b) ∧
      ∀ k ∈ (run s ops).keys,
        s.nextKeyStatic ≤ k ∧ k < s.nextKeyStatic + allocations ops := by
  induction ops with
  | nil =>
    intro s _
    simp [run]
  | cons op ops ih =>
    intro s hb
    by_cases hop : op = Op.createWebViewRequested
    · subst hop
      rw [run_cons_create]
      simp only [allocations] at hb ⊢
      have hc := onCreateWebViewRequested_nextKeyStatic s
      by_cases hw : s.nextKeyStatic + 1 < 2 ^ 64
      · rw [Nat.mod_eq_of_lt hw] at hc
        obtain ⟨ih1, ih2⟩ := ih (onCreateWebViewRequested s).2 (by rw [hc]; omega)
        rw [hc] at ih2
        refine ⟨List.pairwise_cons.mpr ⟨fun k hk => ?_, ih1⟩, fun k hk => ?_⟩
        · have := ih2 k hk
          omega
        · rcases List.mem_cons.mp hk with rfl | hk
          · omega
          · have := ih2 k hk
            omega
      · have hfull : s.nextKeyStatic + 1 = 2 ^ 64 := by omega
        have ha : allocations ops = 0 := by omega
        rw [hfull, Nat.mod_self] at hc
        obtain ⟨ih1, ih2⟩ := ih (onCreateWebViewRequested s).2 (by rw [hc, ha]; omega)
        rw [hc, ha] at ih2
        refine ⟨List.pairwise_cons.mpr ⟨fun k hk => ?_, ih1⟩, fun k hk => ?_⟩
        · have := ih2 k hk
          omega
        · rcases List.mem_cons.mp hk with rfl | hk
          · omega
          · have := ih2 k hk
            omega
    · rw [allocations_cons_other op ops hop] at hb ⊢
      by_cases hn : (step s op).2 = Reply.nullDeref
      · rw [run_cons_crash s op ops hn]
        simp
      · rw [run_cons_other s op ops hop hn]
        have hc := (step_not_create s op hop).2.1
        have := ih (step s op).1 (by rw [hc]; exact hb)
        rw [hc] at this
        exact this

theorem mainKey_eq (c : Startup) : MainWindow.mainKey c = 0 := rfl

theorem construct_nextKeyStatic (c : Startup) :
    (MainWindow.construct c).nextKeyStatic = 1 := rfl

/-- C1, as the code has it: as long as `nextKey` has been called at most
`2 ^ 64` times (the constructor's call and the create requests of the run),
the handles handed out are strictly increasing in call order, none is handed
out twice, whatever other operations come in between, every handle is below
`2 ^ 64`, and the first one is 0. -/
theorem handles_strictly_increasing_before_wrap (c : Startup) (ops : List Op)
    (h : allocations ops + 1 ≤ 2 ^ 64) :
    (handles c ops).Pairwise (fun a b => a < b) ∧
    (handles c ops).Nodup ∧
    (handles c ops).head? = some 0 ∧
    ∀ k ∈ handles c ops, k < 2 ^ 64 := by
  have hr := run_keys_increasing ops (MainWindow.construct c)
    (by rw [construct_nextKeyStatic]; omega)
  rw [construct_nextKeyStatic] at hr
  have hp : (handles c ops).Pairwise (fun a b => a < b) := by
    unfold handles
    rw [mainKey_eq]
    refine List.pairwise_cons.mpr ⟨fun k hk => ?_, hr.1⟩
    have := hr.2 k hk
    omega
  refine ⟨hp, ?_, rfl, ?_⟩
  · exact hp.imp (fun hab => Nat.ne_of_lt hab)
  · intro k hk
    unfold handles at hk
    rw [mainKey_eq] at hk
    rcases List.mem_cons.mp hk with rfl | hk
    · exact Nat.two_pow_pos 64
    · have := hr.2 k hk
      omega

/-! ## Runs of create requests only -/

theorem run_replicate_create (n : Nat) :
    ∀ s : MainWindow, s.nextKeyStatic < 2 ^ 64 →
      (run s (createRun n)).keys
          = (List.range n).map (fun i => (s.nextKeyStatic + i) % 2 ^ 64) ∧
      (run s (createRun n)).crashed = false ∧
      (run s (createRun n)).state.nextKeyStatic = (s.nextKeyStatic + n) % 2 ^ 64 := by
  induction n with
  | zero =>
    intro s hs
    refine ⟨rfl, rfl, ?_⟩
    show s.nextKeyStatic = (s.nextKeyStatic + 0) % 2 ^ 64
    rw [Nat.add_zero, Nat.mod_eq_of_lt hs]
  | succ n ih =>
    intro s hs
    unfold createRun at ih ⊢
    rw [List.replicate_succ, run_cons_create]
    have hc := onCreateWebViewRequested_nextKeyStatic s
    obtain ⟨ih1, ih2, ih3⟩ := ih (onCreateWebViewRequested s).2
      (by rw [hc]; exact Nat.mod_lt _ (Nat.two_pow_pos 64))
    refine ⟨?_, ih2, ?_⟩
    · show s.nextKeyStatic :: (run (onCreateWebViewRequested s).2 _).keys = _
      rw [ih1, List.range_succ_eq_map, List.map_cons, List.map_map, hc]
      congr 1
      · rw [Nat.add_zero, Nat.mod_eq_of_lt hs]
      · apply List.map_congr_left
        intro i _
        simp only [Function.comp, Nat.succ_eq_add_one]
        rw [Nat.mod_add_mod]
        congr 1
        omega
    · show (run (onCreateWebViewRequested s).2 _).state.nextKeyStatic = _
      rw [ih3, hc, Nat.mod_add_mod]
      congr 1
      omega

theorem QMap.contains_insert_of_contains {V : Type} (m : QMap V) (key other : Nat) (v : V)
    (h : QMap.contains m other = true) :
    QMap.contains (QMap.insert m key v) other = true := by
  rw [QMap.contains_eq_isSome] at h ⊢
  by_cases hk : other = key
  · subst hk
    rw [QMap.find_insert_self]
    rfl
  · rw [QMap.find_insert_of_ne m key other v hk]
    exact h

theorem lookupWebView_create_of_ne (s : MainWindow) (key : Nat) (h : key ≠ s.nextKeyStatic) :
    lookupWebView (onCreateWebViewRequested s).2 key = lookupWebView s key := by
  rw [lookupWebView_eq_find, lookupWebView_eq_find, onCreateWebViewRequested_views,
    QMap.find_insert_of_ne _ _ _ _ h]

theorem run_createRun_keeps (n : Nat) :
    ∀ s : MainWindow, 1 ≤ s.nextKeyStatic → s.nextKeyStatic + n ≤ 2 ^ 64 →
      lookupWebView (run s (createRun n)).state 0 = lookupWebView s 0 ∧
      (QMap.contains s.views 0 = true →
        QMap.contains (run s (createRun n)).state.views 0 = true) ∧
      ∀ v ∈ s.children, v ∈ (run s (createRun n)).state.children := by
  induction n with
  | zero =>
    intro s _ _
    exact ⟨rfl, fun h => h, fun _ h => h⟩
  | succ n ih =>
    intro s h1 hb
    unfold createRun at ih ⊢
    rw [List.replicate_succ, run_cons_create]
    show lookupWebView (run (onCreateWebViewRequested s).2 _).state 0 = _ ∧
      (_ → QMap.contains (run (onCreateWebViewRequested s).2 _).state.views 0 = true) ∧
      ∀ v ∈ s.children, v ∈ (run (onCreateWebViewRequested s).2 _).state.children
    have hstep : lookupWebView (onCreateWebViewRequested s).2 0 = lookupWebView s 0 :=
      lookupWebView_create_of_ne s 0 (by omega)
    have hcont : QMap.contains s.views 0 = true →
        QMap.contains (onCreateWebViewRequested s).2.views 0 = true := by
      intro h
      rw [onCreateWebViewRequested_views]
      exact QMap.contains_insert_of_contains _ _ _ _ h
    have hch : ∀ v ∈ s.children, v ∈ (onCreateWebViewRequested s).2.children := by
      intro v hv
      rw [onCreateWebViewRequested_children]
      exact List.mem_append_left _ hv
    cases n with
    | zero => exact ⟨hstep, hcont, hch⟩
    | succ n =>
      have hc := onCreateWebViewRequested_nextKeyStatic s
      have hlt : s.nextKeyStatic + 1 < 2 ^ 64 := by omega
      rw [Nat.mod_eq_of_lt hlt] at hc
      obtain ⟨i1, i2, i3⟩ := ih (onCreateWebViewRequested s).2 (by rw [hc]; omega)
        (by rw [hc]; omega)
      exact ⟨i1.trans hstep, fun h => i2 (hcont h), fun v hv => i3 v (hch v hv)⟩

/-- C1 fails past the wrap. The run of `2 ^ 64` create requests on a new window:
the last request returns handle 0, the handle the constructor took, so the handles neither
increase strictly nor stay distinct. -/
theorem handle_zero_handed_out_again_after_wrap :
    0 ∈ (run (MainWindow.construct demoStartup) (createRun (2 ^ 64))).keys ∧
    (handles demoStartup (createRun (2 ^ 64))).head? = some 0 ∧
    ¬ (handles demoStartup (createRun (2 ^ 64))).Nodup ∧
    ¬ (handles demoStartup (createRun (2 ^ 64))).Pairwise (fun a b => a < b) := by
  have hk := (run_replicate_create (2 ^ 64) (MainWindow.construct demoStartup)
    (by rw [construct_nextKeyStatic]; exact Nat.one_lt_two_pow (by omega))).1
  rw [construct_nextKeyStatic] at hk
  have hmem : 0 ∈ (run (MainWindow.construct demoStartup) (createRun (2 ^ 64))).keys := by
    rw [hk]
    apply List.mem_map.mpr
    refine ⟨2 ^ 64 - 1, List.mem_range.mpr (by omega), ?_⟩
    show (1 + (2 ^ 64 - 1)) % 2 ^ 64 = 0
    have : 1 + (2 ^ 64 - 1) = 2 ^ 64 := by omega
    rw [this, Nat.mod_self]
  refine ⟨hmem, rfl, ?_, ?_⟩
  · intro hnd
    unfold handles at hnd
    rw [mainKey_eq] at hnd
    exact (List.nodup_cons.mp hnd).1 hmem
  · intro hp
    unfold handles at hp
    rw [mainKey_eq] at hp
    exact Nat.lt_irrefl 0 ((List.pairwise_cons.mp hp).1 0 hmem)

/-- C4 fails at the wrap. The run of `2 ^ 64 - 1` create requests on a new window
ends, without a null dereference, in a state whose counter is back at 0 while handle 0 still maps
to the main view: the next create request returns 0, a handle present in the
mapping, and the entry of handle 0 is overwritten with the new view. -/
theorem create_returns_present_handle_after_wrap :
    reachedBy demoStartup (createRun (2 ^ 64 - 1))
      (run (MainWindow.construct demoStartup) (createRun (2 ^ 64 - 1))).state ∧
    (onCreateWebViewRequested
      (run (MainWindow.construct demoStartup) (createRun (2 ^ 64 - 1))).state).1 = 0 ∧
    QMap.contains
      (run (MainWindow.construct demoStartup) (createRun (2 ^ 64 - 1))).state.views
      (onCreateWebViewRequested
        (run (MainWindow.construct demoStartup) (createRun (2 ^ 64 - 1))).state).1 = true ∧
    lookupWebView (run (MainWindow.construct demoStartup) (createRun (2 ^ 64 - 1))).state 0
      = some 1 ∧
    lookupWebView
      (onCreateWebViewRequested
        (run (MainWindow.construct demoStartup) (createRun (2 ^ 64 - 1))).state).2 0
      ≠ some 1 := by
  have hs := run_replicate_create (2 ^ 64 - 1) (MainWindow.construct demoStartup)
    (by rw [construct_nextKeyStatic]; exact Nat.one_lt_two_pow (by omega))
  have hkeep := run_createRun_keeps (2 ^ 64 - 1) (MainWindow.construct demoStartup)
    (by rw [construct_nextKeyStatic]) (by rw [construct_nextKeyStatic]; omega)
  rw [construct_nextKeyStatic] at hs
  unfold reachedBy
  generalize run (MainWindow.construct demoStartup) (createRun (2 ^ 64 - 1)) = t
    at hkeep hs ⊢
  have hcr : t.crashed = false := hs.2.1
  have hcnt : t.state.nextKeyStatic = 0 := by
    rw [hs.2.2]
    have : 1 + (2 ^ 64 - 1) = 2 ^ 64 := by omega
    rw [this, Nat.mod_self]
  have hkey : (onCreateWebViewRequested t.state).1 = 0 := by
    rw [onCreateWebViewRequested_key, hcnt]
  have hcont : QMap.contains t.state.views 0 = true := hkeep.2.1 rfl
  have hmain : lookupWebView t.state 0 = some 1 := hkeep.1.trans rfl
  have hchild : ∃ v ∈ t.state.children, v.addr = 1 := by
    obtain ⟨v, hv, ha⟩ : ∃ v ∈ (MainWindow.construct demoStartup).children, v.addr = 1 :=
      ⟨_, List.mem_cons_self _ _, rfl⟩
    exact ⟨v, hkeep.2.2 v hv, ha⟩
  refine ⟨⟨hcr, rfl⟩, hkey, by rw [hkey]; exact hcont, hmain, ?_⟩
  have hnew := lookupWebView_created t.state
  rw [hkey] at hnew
  rw [hnew]
  obtain ⟨v, hv, ha⟩ := hchild
  have := lt_freshAddr t.state.children v hv
  intro h
  have h2 : freshAddr t.state.children = 1 := Option.some.inj h
  omega

/-! ## The counter bounds the handles in the mapping -/

/-- After `n` calls of `nextKey` the counter is `n` modulo `2 ^ 64` and every
handle in the mapping is below `n`; a run that does not end in a null
dereference keeps this, with `n` grown by its create requests. -/
theorem run_counter_bounds_handles (ops : List Op) :
    ∀ (s : MainWindow) (n : Nat), s.nextKeyStatic = n % 2 ^ 64 →
      (∀ e ∈ s.views, e.1 < n) → (run s ops).crashed = false →
      (run s ops).state.nextKeyStatic = (n + allocations ops) % 2 ^ 64 ∧
      ∀ e ∈ (run s ops).state.views, e.1 < n + allocations ops := by
  induction ops with
  | nil =>
    intro s n hc hk _
    exact ⟨hc, hk⟩
  | cons op ops ih =>
    intro s n hc hk hcr
    by_cases hop : op = Op.createWebViewRequested
    · subst hop
      rw [run_cons_create] at hcr ⊢
      have hc1 : (onCreateWebViewRequested s).2.nextKeyStatic = (n + 1) % 2 ^ 64 := by
        rw [onCreateWebViewRequested_nextKeyStatic, hc, Nat.mod_add_mod]
      have hk1 : ∀ e ∈ (onCreateWebViewRequested s).2.views, e.1 < n + 1 := by
        intro e he
        rw [onCreateWebViewRequested_views] at he
        rcases QMap.mem_insert _ _ _ _ he with rfl | he
        · show s.nextKeyStatic < n + 1
          rw [hc]
          exact Nat.lt_succ_of_le (Nat.mod_le _ _)
        · exact Nat.lt_succ_of_lt (hk e he)
      have := ih (onCreateWebViewRequested s).2 (n + 1) hc1 hk1 hcr
      simp only [allocations]
      rw [show n + (allocations ops + 1) = n + 1 + allocations ops by omega]
      exact this
    · by_cases hn : (step s op).2 = Reply.nullDeref
      · rw [run_cons_crash s op ops hn] at hcr
        cases hcr
      · rw [run_cons_other s op ops hop hn] at hcr ⊢
        rw [allocations_cons_other op ops hop]
        have hf := step_not_create s op hop
        exact ih (step s op).1 n (by rw [hf.2.1]; exact hc)
          (fun e he => hk e (hf.2.2 hn e he)) hcr

theorem reachedBy_counter_bounds_handles (c : Startup) (ops : List Op) (s : MainWindow)
    (hr : reachedBy c ops s) :
    s.nextKeyStatic = (allocations ops + 1) % 2 ^ 64 ∧
    ∀ e ∈ s.views, e.1 < allocations ops + 1 := by
  obtain ⟨hcr, rfl⟩ := hr
  have := run_counter_bounds_handles ops (MainWindow.construct c) 1 rfl
    (by
      intro e he
      have : e = (0, some 1) := by simpa [MainWindow.construct, addWebView, nextKey,
        MainWindow.blank, updateView, QMap.insert] using he
      rw [this]
      exact Nat.one_pos) hcr
  rw [Nat.add_comm 1] at this
  exact this

/-- C4, as the code has it: in every state reached from construction by a run
without null dereference in which `nextKey` has been called fewer than
`2 ^ 64` times, the create request returns a handle that is not in the mapping
(the number of calls so far); afterwards `lookupWebView` of that handle
returns the new view, which has the opaque fill on and a fresh page and is the
last child, the existing children are as they were, the mapping has one more
entry, and every other handle maps to the same view as before. -/
theorem create_adds_unused_handle_before_wrap (c : Startup) (ops : List Op) (s : MainWindow)
    (hr : reachedBy c ops s) (hb : allocations ops + 1 < 2 ^ 64) :
    (onCreateWebViewRequested s).1 = allocations ops + 1 ∧
    QMap.contains s.views (onCreateWebViewRequested s).1 = false ∧
    lookupWebView (onCreateWebViewRequested s).2 (onCreateWebViewRequested s).1
      = some (freshAddr s.children) ∧
    deref (onCreateWebViewRequested s).2 (some (freshAddr s.children))
      = some { QWebEngineView.fresh (freshAddr s.children) with
                autoFillBackground := true, page := WebEnginePage.fresh,
                observerKey := some (onCreateWebViewRequested s).1 } ∧
    (onCreateWebViewRequested s).2.children
      = s.children ++
        [{ QWebEngineView.fresh (freshAddr s.children) with
            autoFillBackground := true, page := WebEnginePage.fresh,
            observerKey := some (onCreateWebViewRequested s).1 }] ∧
    QMap.size (onCreateWebViewRequested s).2.views = QMap.size s.views + 1 ∧
    ∀ key, QMap.contains s.views key = true →
      lookupWebView (onCreateWebViewRequested s).2 key = lookupWebView s key := by
  obtain ⟨hc, hk⟩ := reachedBy_counter_bounds_handles c ops s hr
  rw [Nat.mod_eq_of_lt hb] at hc
  have habs : QMap.contains s.views s.nextKeyStatic = false := by
    unfold QMap.contains
    rw [List.any_eq_false]
    intro e he
    have := hk e he
    simp only [beq_iff_eq]
    omega
  refine ⟨hc, habs, lookupWebView_created s, deref_created s,
    onCreateWebViewRequested_children s, ?_, ?_⟩
  · rw [onCreateWebViewRequested_views]
    exact QMap.size_insert_of_absent _ _ _ habs
  · intro key hkey
    apply lookupWebView_create_of_ne
    intro h
    rw [h, habs] at hkey
    cases hkey

/-! ## Evaluations on concrete runs -/

/-- C5: after create, destroy of handle 0 and showing view 1, the mapping is
`1 ↦ view` with the view visible, so a scan of the entries finds that view;
`lookupVisibleWebView` instead evaluates `views[0]`, which inserts a null
entry for handle 0, and dereferences it. -/
theorem lookupVisibleWebView_null_deref_with_visible_view :
    reachedBy demoStartup holeOps holeState ∧
    holeState.views = [(1, some 2)] ∧
    (deref holeState (some 2)).map (fun v => v.visible) = some true ∧
    firstVisibleEntry holeState = some 2 ∧
    (lookupVisibleWebView holeState).2 = Lookup.nullDeref ∧
    step holeState Op.lookupVisibleWebView
      = ({ holeState with views := [(0, none), (1, some 2)] }, Reply.nullDeref) := by
  refine ⟨⟨by decide, rfl⟩, by decide, by decide, by decide, by decide, by decide⟩

/-- C7: after create and destroy of handle 0, `lookupVisibleWebView` adds an
entry for handle 0 whose view pointer is null, and then dereferences it. -/
theorem lookupVisibleWebView_inserts_null_entry :
    reachedBy demoStartup hiddenHoleOps hiddenHoleState ∧
    QMap.contains hiddenHoleState.views 0 = false ∧
    QMap.size hiddenHoleState.views = 1 ∧
    QMap.contains (lookupVisibleWebView hiddenHoleState).1.views 0 = true ∧
    QMap.value (lookupVisibleWebView hiddenHoleState).1.views 0 = none ∧
    QMap.size (lookupVisibleWebView hiddenHoleState).1.views = 2 ∧
    (lookupVisibleWebView hiddenHoleState).2 = Lookup.nullDeref := by
  refine ⟨⟨by decide, rfl⟩, by decide, by decide, by decide, by decide, by decide, by decide⟩

/-- C6 fails for a created view: the view of handle 1 made by a create request
raises a permission request with origin `http://localhost:1234`; no verdict is
recorded and the window is left as it was. -/
theorem created_view_request_gets_no_verdict :
    lookupWebView threeViews 1 = some 2 ∧
    localhostOrigin.host = "localhost" ∧
    (deref (step threeViews (Op.featurePermissionRequested 2 localhostOrigin 0)).1
        (some 2)).map (fun w => w.page.verdictFor localhostOrigin 0)
      = some PermissionPolicy.PermissionUnknown ∧
    (step threeViews (Op.featurePermissionRequested 2 localhostOrigin 0)).1 = threeViews := by
  refine ⟨by decide, by decide, by decide, by decide⟩

/-! ## Instances -/

/-- An instance of C1 as amended: create, destroy of handle 1, create hand out 1 and 2
after the constructor's 0. -/
theorem handles_strictly_increasing_before_wrap_witness :
    allocations [Op.createWebViewRequested, Op.destroyWebViewRequested 1,
      Op.createWebViewRequested] + 1 ≤ 2 ^ 64 ∧
    handles demoStartup [Op.createWebViewRequested, Op.destroyWebViewRequested 1,
      Op.createWebViewRequested] = [0, 1, 2] ∧
    (handles demoStartup [Op.createWebViewRequested, Op.destroyWebViewRequested 1,
      Op.createWebViewRequested]).Pairwise (fun a b => a < b) :=
  ⟨by decide, by decide,
    (handles_strictly_increasing_before_wrap demoStartup
      [Op.createWebViewRequested, Op.destroyWebViewRequested 1, Op.createWebViewRequested]
      (by decide)).1⟩

/-- An instance of C3: handle 7 on a new window. -/
theorem unknown_handle_requests_change_nothing_witness :
    QMap.contains (MainWindow.construct demoStartup).views 7 = false ∧
    step (MainWindow.construct demoStartup) (Op.destroyWebViewRequested 7)
      = (MainWindow.construct demoStartup, Reply.done) :=
  ⟨by decide,
    (unknown_handle_requests_change_nothing (MainWindow.construct demoStartup) 7
      (by decide)).1⟩

/-- An instance of C4 as amended: after create and destroy of handle 0 the next
create returns 2. -/
theorem create_adds_unused_handle_before_wrap_witness :
    reachedBy demoStartup hiddenHoleOps hiddenHoleState ∧
    allocations hiddenHoleOps + 1 < 2 ^ 64 ∧
    (onCreateWebViewRequested hiddenHoleState).1 = allocations hiddenHoleOps + 1 :=
  ⟨⟨by decide, rfl⟩, by decide,
    (create_adds_unused_handle_before_wrap demoStartup hiddenHoleOps hiddenHoleState
      ⟨by decide, rfl⟩ (by decide)).1⟩

/-- An instance of C8: with three views in creation order, stacking the main view
under the last one and raising it leaves it on top of the other two. -/
theorem stack_under_then_raise_puts_view_on_top_witness :
    lookupWebView threeViews 0 = some 1 ∧
    (threeViews.children.map (fun v => v.addr)) = [1, 2, 3] ∧
    ((onWebViewStackOnTop (onWebViewStackUnder threeViews 0 2) 0).children.map
      (fun v => v.addr)) = [2, 3, 1] ∧
    (onWebViewStackOnTop (onWebViewStackUnder threeViews 0 2) 0).children.filter
        (fun c => !(c.addr == 1))
      = threeViews.children.filter (fun c => !(c.addr == 1)) :=
  ⟨by decide, by decide, by decide,
    (stack_under_then_raise_puts_view_on_top threeViews 0 2 1
      { QWebEngineView.fresh 1 with
          page := { WebEnginePage.fresh with webChannel := true, permissionHandler := true },
          url := demoStartup.mainViewUrl,
          geometry := { x := 0, y := 0, w := 800, h := 600 },
          titleToWindow := true }
      (by decide) (by decide)).2.2.1⟩

/-- An instance of C9: the view of handle 1, made transparent and opaque again. -/
theorem transparent_background_follows_last_value_witness :
    lookupWebView threeViews 1 = some 2 ∧
    (deref (onWebViewTransparentBackgroundChangeRequested
        (onWebViewTransparentBackgroundChangeRequested threeViews 1 true) 1 false)
        (some 2)).map fillState = some (true, Color.white) :=
  ⟨by decide,
    (transparent_background_follows_last_value threeViews 1 2
      { QWebEngineView.fresh 2 with
          autoFillBackground := true, page := WebEnginePage.fresh, observerKey := some 1 }
      (by decide) (by decide)).2.1⟩

/-! ## Well-formed states -/

theorem mem_insertBefore (under : Nat) (v x : QWebEngineView) (l : List QWebEngineView)
    (h : x ∈ insertBefore under v l) : x = v ∨ x ∈ l := by
  induction l with
  | nil => cases h
  | cons c cs ih =>
    unfold insertBefore at h
    split at h
    · rcases List.mem_cons.mp h with h | h
      · exact Or.inl h
      · exact Or.inr h
    · rcases List.mem_cons.mp h with h | h
      · exact Or.inr (h ▸ List.mem_cons_self _ _)
      · rcases ih h with h | h
        · exact Or.inl h
        · exact Or.inr (List.mem_cons_of_mem _ h)

theorem mem_insertBefore_of_present (under : Nat) (v x : QWebEngineView)
    (l : List QWebEngineView) (hu : l.any (fun c => c.addr == under) = true)
    (h : x = v ∨ x ∈ l) : x ∈ insertBefore under v l := by
  induction l with
  | nil => simp at hu
  | cons c cs ih =>
    unfold insertBefore
    by_cases hc : c.addr = under
    · simp only [hc, if_true]
      rcases h with h | h
      · exact h ▸ List.mem_cons_self _ _
      · exact List.mem_cons_of_mem _ h
    · have hu2 : cs.any (fun c => c.addr == under) = true := by
        simpa [List.any_cons, hc] using hu
      simp only [hc, if_false]
      rcases h with h | h
      · exact List.mem_cons_of_mem _ (ih hu2 (Or.inl h))
      · rcases List.mem_cons.mp h with h | h
        · exact h ▸ List.mem_cons_self _ _
        · exact List.mem_cons_of_mem _ (ih hu2 (Or.inr h))

theorem mem_stackUnder (l : List QWebEngineView) (p q : Nat) (x : QWebEngineView)
    (h : x ∈ stackUnder l p q) : x ∈ l := by
  unfold stackUnder at h
  split at h
  · exact h
  · split at h
    · exact h
    · rename_i v hv
      split at h
      · rcases mem_insertBefore q v x _ h with h | h
        · rw [h]
          exact List.mem_of_find?_eq_some hv
        · exact (List.mem_filter.mp h).1
      · exact h

theorem addr_mem_stackUnder (l : List QWebEngineView) (p q : Nat) (x : QWebEngineView)
    (h : x ∈ l) : ∃ y ∈ stackUnder l p q, y.addr = x.addr := by
  unfold stackUnder
  split
  · exact ⟨x, h, rfl⟩
  · rename_i hpq
    split
    · exact ⟨x, h, rfl⟩
    · rename_i v hv
      split
      · rename_i hq
        have hvp : v.addr = p := by simpa using List.find?_some hv
        have hq2 : (l.filter (fun c => !(c.addr == p))).any (fun c => c.addr == q) = true := by
          rw [List.any_eq_true] at hq ⊢
          obtain ⟨c, hc, hcq⟩ := hq
          refine ⟨c, List.mem_filter.mpr ⟨hc, ?_⟩, hcq⟩
          have : c.addr = q := by simpa using hcq
          simp only [Bool.not_eq_true', beq_eq_false_iff_ne, ne_eq, this]
          exact fun h => hpq h.symm
        by_cases hx : x.addr = p
        · exact ⟨v, mem_insertBefore_of_present q v v _ hq2 (Or.inl rfl), by rw [hvp, hx]⟩
        · refine ⟨x, mem_insertBefore_of_present q v x _ hq2 (Or.inr ?_), rfl⟩
          exact List.mem_filter.mpr ⟨h, by simpa using hx⟩
      · exact ⟨x, h, rfl⟩

theorem mem_raise (l : List QWebEngineView) (a : Nat) (x : QWebEngineView)
    (h : x ∈ raise l a) : x ∈ l := by
  unfold raise at h
  split at h
  · exact h
  · rename_i v hv
    rcases List.mem_append.mp h with h | h
    · exact (List.mem_filter.mp h).1
    · rw [List.mem_singleton.mp h]
      exact List.mem_of_find?_eq_some hv

theorem addr_mem_raise (l : List QWebEngineView) (a : Nat) (x : QWebEngineView)
    (h : x ∈ l) : ∃ y ∈ raise l a, y.addr = x.addr := by
  unfold raise
  split
  · exact ⟨x, h, rfl⟩
  · rename_i v hv
    have hva : v.addr = a := by simpa using List.find?_some hv
    by_cases hx : x.addr = a
    · exact ⟨v, List.mem_append_right _ (List.mem_singleton.mpr rfl), by rw [hva, hx]⟩
    · exact ⟨x, List.mem_append_left _ (List.mem_filter.mpr ⟨h, by simpa using hx⟩), rfl⟩

/-- A step that keeps the mapping, keeps the addresses of the children and
keeps, child by child, the handler and observer connections, keeps the state
well formed. -/
theorem wellFormed_of_same_views (s s1 : MainWindow) (hw : WellFormed s)
    (hv : s1.views = s.views)
    (ha : ∀ x ∈ s.children, ∃ y ∈ s1.children, y.addr = x.addr)
    (hp : ∀ y ∈ s1.children, ∃ x ∈ s.children, connections y = connections x) :
    WellFormed s1 := by
  obtain ⟨h1, h2, h3⟩ := hw
  refine ⟨?_, ?_, ?_⟩
  · intro e he
    rw [hv] at he
    obtain ⟨a, hea, x, hx, hxa⟩ := h1 e he
    obtain ⟨y, hy, hya⟩ := ha x hx
    exact ⟨a, hea, y, hy, hya.trans hxa⟩
  · rw [hv]
    exact h2
  · intro y hy
    obtain ⟨x, hx, e1⟩ := hp y hy
    rw [e1]
    exact h3 x hx

theorem wellFormed_updateView (s : MainWindow) (a : Nat)
    (f : QWebEngineView → QWebEngineView) (hw : WellFormed s)
    (hf : ∀ v, (f v).addr = v.addr ∧ connections (f v) = connections v) :
    WellFormed (updateView s a f) := by
  apply wellFormed_of_same_views s (updateView s a f) hw rfl
  · intro x hx
    refine ⟨if x.addr = a then f x else x, ?_, ?_⟩
    · exact List.mem_map.mpr ⟨x, hx, rfl⟩
    · split
      · exact (hf x).1
      · rfl
  · intro y hy
    obtain ⟨x, hx, rfl⟩ := List.mem_map.mp hy
    refine ⟨x, hx, ?_⟩
    split
    · exact (hf x).2
    · rfl

theorem wellFormed_of_same_children (s s1 : MainWindow) (hw : WellFormed s)
    (hv : s1.views = s.views) (hc : s1.children = s.children) : WellFormed s1 := by
  unfold WellFormed at hw ⊢
  rw [hv, hc]
  exact hw

theorem lookupWebView_entry (s : MainWindow) (key a : Nat)
    (h : lookupWebView s key = some a) : ∃ e ∈ s.views, e.1 = key ∧ e.2 = some a := by
  rw [lookupWebView_eq_find] at h
  cases hf : s.views.find? (fun e => e.1 == key) with
  | none => rw [hf] at h; cases h
  | some e =>
    rw [hf] at h
    exact ⟨e, List.mem_of_find?_eq_some hf, by simpa using List.find?_some hf, h⟩

theorem QMap.nodup_insert {V : Type} (m : QMap V) (key : Nat) (v : V)
    (hv : v ∉ m.map (fun e => e.2)) (hn : (m.map (fun e => e.2)).Nodup) :
    ((QMap.insert m key v).map (fun e => e.2)).Nodup := by
  induction m with
  | nil => simp [QMap.insert]
  | cons e m ih =>
    simp only [List.map_cons, List.mem_cons, not_or, List.nodup_cons] at hv hn
    unfold QMap.insert
    split
    · simp only [List.map_cons, List.nodup_cons, List.mem_cons, not_or]
      exact ⟨⟨hv.1, hv.2⟩, hn.1, hn.2⟩
    · split
      · simp only [List.map_cons, List.nodup_cons]
        exact ⟨hv.2, hn.2⟩
      · simp only [List.map_cons, List.nodup_cons]
        refine ⟨?_, ih hv.2 hn.2⟩
        intro hmem
        obtain ⟨x, hx, hxe⟩ := List.mem_map.mp hmem
        rcases QMap.mem_insert m key v x hx with rfl | hx
        · exact hv.1 hxe
        · exact hn.1 (List.mem_map.mpr ⟨x, hx, hxe⟩)

theorem wellFormed_construct (c : Startup) : WellFormed (MainWindow.construct c) := by
  refine ⟨?_, ?_, ?_⟩
  · intro e he
    have : e = (0, some 1) := List.mem_singleton.mp he
    exact ⟨1, by rw [this], _, List.mem_singleton.mpr rfl, rfl⟩
  · exact List.nodup_singleton _
  · intro v hv
    have : v = _ := List.mem_singleton.mp hv
    rw [this]
    exact Or.inl rfl

theorem wellFormed_create (s : MainWindow) (hw : WellFormed s) :
    WellFormed (onCreateWebViewRequested s).2 := by
  obtain ⟨h1, h2, h3⟩ := hw
  have hfresh : (some (freshAddr s.children)) ∉ s.views.map (fun e => e.2) := by
    intro hmem
    obtain ⟨e, he, hee⟩ := List.mem_map.mp hmem
    obtain ⟨a, hea, x, hx, hxa⟩ := h1 e he
    have := lt_freshAddr s.children x hx
    rw [hea] at hee
    have : a = freshAddr s.children := Option.some.inj hee
    omega
  refine ⟨?_, ?_, ?_⟩
  · intro e he
    rw [onCreateWebViewRequested_views] at he
    rw [onCreateWebViewRequested_children]
    rcases QMap.mem_insert _ _ _ _ he with rfl | he
    · exact ⟨_, rfl, _, List.mem_append_right _ (List.mem_singleton.mpr rfl), rfl⟩
    · obtain ⟨a, hea, x, hx, hxa⟩ := h1 e he
      exact ⟨a, hea, x, List.mem_append_left _ hx, hxa⟩
  · rw [onCreateWebViewRequested_views]
    exact QMap.nodup_insert _ _ _ hfresh h2
  · intro v hv
    rw [onCreateWebViewRequested_children] at hv
    rcases List.mem_append.mp hv with hv | hv
    · exact h3 v hv
    · rw [List.mem_singleton.mp hv]
      exact Or.inr ⟨s.nextKeyStatic, rfl⟩

theorem wellFormed_destroy (s : MainWindow) (key : Nat) (hw : WellFormed s) :
    WellFormed (onDestroyWebViewRequested s key) := by
  unfold onDestroyWebViewRequested
  cases hl : lookupWebView s key with
  | none => exact hw
  | some a =>
    obtain ⟨h1, h2, h3⟩ := hw
    obtain ⟨e0, he0, hk0, hp0⟩ := lookupWebView_entry s key a hl
    refine ⟨?_, ?_, ?_⟩
    · intro e he
      have he2 := List.mem_filter.mp he
      have hek : e.1 ≠ key := by simpa using he2.2
      obtain ⟨b, heb, x, hx, hxb⟩ := h1 e he2.1
      have hba : b ≠ a := by
        intro hba
        have : e = e0 := List.inj_on_of_nodup_map h2 he2.1 he0 (by rw [heb, hp0, hba])
        exact hek (this ▸ hk0)
      refine ⟨b, heb, if x.addr = a then { x with visible := false } else x, ?_, ?_⟩
      · apply List.mem_filter.mpr
        refine ⟨List.mem_map.mpr ⟨x, hx, rfl⟩, ?_⟩
        have : x.addr ≠ a := by rw [hxb]; exact hba
        simp [this]
      · split <;> exact hxb
    · exact h2.sublist ((List.filter_sublist _).map _)
    · intro y hy
      obtain ⟨x, hx, rfl⟩ := List.mem_map.mp (List.mem_filter.mp hy).1
      have := h3 x hx
      split
      · exact this
      · exact this

theorem wellFormed_step (s : MainWindow) (op : Op) (hw : WellFormed s)
    (hn : (step s op).2 ≠ Reply.nullDeref) : WellFormed (step s op).1 := by
  cases op with
  | createWebViewRequested => exact wellFormed_create s hw
  | destroyWebViewRequested key => exact wellFormed_destroy s key hw
  | urlChangeRequested key url =>
    show WellFormed (onWebViewURLChangeRequested s key url)
    unfold onWebViewURLChangeRequested
    split
    · exact hw
    · exact wellFormed_updateView s _ _ hw (fun _ => ⟨rfl, rfl⟩)
  | geometryChangeRequested key x y w ht =>
    show WellFormed (onWebViewGeometryChangeRequested s key x y w ht)
    unfold onWebViewGeometryChangeRequested
    split
    · exact hw
    · exact wellFormed_updateView s _ _ hw (fun _ => ⟨rfl, rfl⟩)
  | visibleChangeRequested key value =>
    show WellFormed (onWebViewVisibleChangeRequested s key value)
    unfold onWebViewVisibleChangeRequested
    split
    · exact hw
    · exact wellFormed_updateView s _ _ hw (fun _ => ⟨rfl, rfl⟩)
  | transparentBackgroundChangeRequested key value =>
    show WellFormed (onWebViewTransparentBackgroundChangeRequested s key value)
    unfold onWebViewTransparentBackgroundChangeRequested
    split
    · exact hw
    · split
      · exact wellFormed_updateView s _ _ hw (fun _ => ⟨rfl, rfl⟩)
      · exact wellFormed_updateView s _ _ hw (fun _ => ⟨rfl, rfl⟩)
  | stackUnder a b =>
    show WellFormed (onWebViewStackUnder s a b)
    unfold onWebViewStackUnder
    split
    · rename_i p q _ _
      exact wellFormed_of_same_views s _ hw rfl
        (fun x hx => addr_mem_stackUnder s.children p q x hx)
        (fun y hy => ⟨y, mem_stackUnder s.children p q y hy, rfl⟩)
    · exact hw
  | stackOnTop key =>
    show WellFormed (onWebViewStackOnTop s key)
    unfold onWebViewStackOnTop
    split
    · exact hw
    · rename_i p _
      exact wellFormed_of_same_views s _ hw rfl
        (fun x hx => addr_mem_raise s.children p x hx)
        (fun y hy => ⟨y, mem_raise s.children p y hy, rfl⟩)
  | lookupWebView key => exact hw
  | lookupVisibleWebView =>
    rw [(step_lookupVisibleWebView s).2.2 hn]
    exact hw
  | activeChanged a => exact wellFormed_of_same_children s _ hw rfl rfl
  | heightChanged ht => exact wellFormed_of_same_children s _ hw rfl rfl
  | resizeEvent width =>
    show WellFormed (resizeEvent s width)
    unfold resizeEvent
    split
    · exact hw
    · exact wellFormed_of_same_children s _ hw rfl rfl
  | viewUrlChanged a url =>
    show WellFormed (viewUrlChanged s a url)
    unfold viewUrlChanged
    split
    · exact hw
    · split
      · exact hw
      · exact wellFormed_of_same_children s _ hw rfl rfl
  | viewTitleChanged a title =>
    show WellFormed (viewTitleChanged s a title)
    unfold viewTitleChanged
    split
    · exact hw
    · simp only
      split <;> split <;> exact hw
  | viewLoadProgress a progress =>
    show WellFormed (viewLoadProgress s a progress)
    unfold viewLoadProgress
    split
    · exact hw
    · split
      · exact hw
      · exact wellFormed_of_same_children s _ hw rfl rfl
  | featurePermissionRequested a o f =>
    show WellFormed (featurePermissionRequested s a o f)
    unfold featurePermissionRequested
    apply wellFormed_updateView s _ _ hw
    intro v
    split
    · exact ⟨rfl, rfl⟩
    · exact ⟨rfl, rfl⟩

/-- Every state a run reaches without a null dereference is well formed: each
handle in the mapping refers to a live view, and no two handles to the same. -/
theorem wellFormed_run (ops : List Op) :
    ∀ s : MainWindow, WellFormed s → (run s ops).crashed = false →
      WellFormed (run s ops).state := by
  induction ops with
  | nil =>
    intro s hw _
    exact hw
  | cons op ops ih =>
    intro s hw hcr
    by_cases hn : (step s op).2 = Reply.nullDeref
    · rw [run_cons_crash s op ops hn] at hcr
      cases hcr
    · have hw1 := wellFormed_step s op hw hn
      by_cases hop : op = Op.createWebViewRequested
      · subst hop
        rw [run_cons_create] at hcr ⊢
        exact ih _ hw1 hcr
      · rw [run_cons_other s op ops hop hn] at hcr ⊢
        exact ih _ hw1 hcr

theorem wellFormed_of_reachedBy (c : Startup) (ops : List Op) (s : MainWindow)
    (hr : reachedBy c ops s) : WellFormed s := by
  obtain ⟨hcr, rfl⟩ := hr
  exact wellFormed_run ops _ (wellFormed_construct c) hcr

/-! ## Feature permissions in reachable states -/

/-- C6, as the code has it: in every state reached from construction, a
permission request with origin `o` and feature `f` raised by the initial view
(the one carrying the constructor's connections) gets the verdict granted when
the host of `o` is the string `localhost` and denied otherwise, whatever `f`
is; `http://localhost:1234` is granted and `http://example.com` denied. A view
made by a create request carries the observers only: a request it raises
leaves the view as it was, with no verdict recorded. -/
theorem permission_verdict_by_host_on_initial_view (c : Startup) (ops : List Op)
    (s : MainWindow) (a : Nat) (v : QWebEngineView) (o : QUrl) (f : Nat)
    (hr : reachedBy c ops s) (hv : deref s (some a) = some v) :
    (v.titleToWindow = true →
      (deref (step s (Op.featurePermissionRequested a o f)).1 (some a)).map
          (fun w => w.page.verdictFor o f)
        = some (if o.host = "localhost" then PermissionPolicy.PermissionGrantedByUser
                else PermissionPolicy.PermissionDeniedByUser)) ∧
    (v.titleToWindow = false →
      (∃ key, v.observerKey = some key) ∧
      deref (step s (Op.featurePermissionRequested a o f)).1 (some a) = some v) ∧
    (∀ g, permissionVerdict o g = permissionVerdict o f) ∧
    permissionVerdict localhostOrigin f = PermissionPolicy.PermissionGrantedByUser ∧
    permissionVerdict exampleOrigin f = PermissionPolicy.PermissionDeniedByUser ∧
    (∀ c0 : Startup,
      (deref (MainWindow.construct c0)
          (lookupWebView (MainWindow.construct c0) (MainWindow.mainKey c0))).map
        (fun w => w.titleToWindow) = some true) ∧
    (∀ s0 : MainWindow,
      (deref (onCreateWebViewRequested s0).2
          (lookupWebView (onCreateWebViewRequested s0).2 (onCreateWebViewRequested s0).1)).map
        (fun w => w.titleToWindow) = some false) := by
  have hw := wellFormed_of_reachedBy c ops s hr
  have hmem : v ∈ s.children := List.mem_of_find?_eq_some hv
  have hconn := hw.2.2 v hmem
  have hstep : deref (step s (Op.featurePermissionRequested a o f)).1 (some a)
      = (deref s (some a)).map (fun v =>
          if v.page.permissionHandler then
            { v with page := { v.page with featurePermissions :=
                v.page.featurePermissions ++
                  [{ securityOrigin := o, feature := f,
                     verdict := permissionVerdict o f }] } }
          else v) :=
    deref_updateView s a _ (by intro w; split <;> rfl)
  refine ⟨?_, ?_, fun _ => rfl, rfl, rfl, fun _ => rfl, ?_⟩
  · intro ht
    have hh : v.page.permissionHandler = true := by
      rcases hconn with h | ⟨key, h⟩
      · exact congrArg Prod.fst h
      · have : v.titleToWindow = false := congrArg (fun t => t.2.1) h
        rw [ht] at this
        cases this
    rw [hstep, hv]
    simp [hh, WebEnginePage.verdictFor, permissionVerdict]
  · intro ht
    rcases hconn with h | ⟨key, h⟩
    · have : v.titleToWindow = true := congrArg (fun t => t.2.1) h
      rw [ht] at this
      cases this
    · have hh : v.page.permissionHandler = false := congrArg Prod.fst h
      refine ⟨⟨key, congrArg (fun t => t.2.2) h⟩, ?_⟩
      rw [hstep, hv]
      simp [hh]
  · intro s0
    rw [lookupWebView_created, deref_created]
    rfl

/-- An instance of C6 as amended: the main view of a new window asks with
origin `http://localhost:1234`. -/
theorem permission_verdict_by_host_on_initial_view_witness :
    reachedBy demoStartup [] (MainWindow.construct demoStartup) ∧
    (deref (step (MainWindow.construct demoStartup)
        (Op.featurePermissionRequested 1 localhostOrigin 0)).1 (some 1)).map
        (fun w => w.page.verdictFor localhostOrigin 0)
      = some (if localhostOrigin.host = "localhost"
              then PermissionPolicy.PermissionGrantedByUser
              else PermissionPolicy.PermissionDeniedByUser) :=
  ⟨⟨rfl, rfl⟩,
    (permission_verdict_by_host_on_initial_view demoStartup []
      (MainWindow.construct demoStartup) 1
      { QWebEngineView.fresh 1 with
          page := { WebEnginePage.fresh with webChannel := true, permissionHandler := true },
          url := demoStartup.mainViewUrl,
          geometry := { x := 0, y := 0, w := 800, h := 600 },
          titleToWindow := true }
      localhostOrigin 0 ⟨rfl, rfl⟩ (by decide)).1 rfl⟩

end Quenby
